import Mathlib

/-!
# Verification of the schema-versioning and tenant-isolated CRUD core

A shallow embedding, in Lean 4, of the core components of the `erp-dsl`
backend:

* the merge engine (`src/domain/services/merge_service.py`),
* the page-version lifecycle
  (`src/domain/services/page_domain_service.py`,
  `src/domain/entities/page_version.py`,
  `src/infrastructure/persistence/sqlalchemy/page_repository_impl.py`,
  `src/application/use_cases/get_page.py`),
* the generic CRUD repository
  (`src/infrastructure/persistence/sqlalchemy/generic_crud_repository.py`).

Python dicts are modelled as association lists kept in insertion order
(`lookupKey` finds the first binding; `setKey` overwrites in place or
appends, exactly like `d[k] = v`).  Database tables are lists of rows in
insertion order; a SQL statement's effect is modelled as the corresponding
pure list transformation.  Timestamps and freshly generated UUIDs are
passed in as explicit parameters (`now`, `freshId`), reflecting that they
are environmental inputs of the code.
-/

set_option maxHeartbeats 1000000
set_option linter.unusedVariables false
set_option linter.unreachableTactic false
set_option linter.unusedTactic false
set_option linter.unnecessarySeqFocus false

namespace ErpDsl

/-! ## JSON-like documents

`JValue` models the JSON-like values stored in `schema_json` documents:
`None`, booleans, numbers, strings, dicts (as ordered association lists)
and lists. -/

inductive JValue where
  | vnull : JValue
  | vbool : Bool → JValue
  | vint : Int → JValue
  | vstr : String → JValue
  | obj : List (String × JValue) → JValue
  | arr : List JValue → JValue

open JValue

mutual

/-- Structural equality of JSON values (Python `==` on the modelled values). -/
def JValue.beq : JValue → JValue → Bool
  | vnull, vnull => true
  | vbool a, vbool b => a == b
  | vint a, vint b => a == b
  | vstr a, vstr b => a == b
  | obj fs, obj gs => beqFields fs gs
  | arr xs, arr ys => beqItems xs ys
  | _, _ => false

def beqFields : List (String × JValue) → List (String × JValue) → Bool
  | [], [] => true
  | (k, v) :: r, (k2, v2) :: r2 => k == k2 && JValue.beq v v2 && beqFields r r2
  | _, _ => false

def beqItems : List JValue → List JValue → Bool
  | [], [] => true
  | x :: xs, y :: ys => JValue.beq x y && beqItems xs ys
  | _, _ => false

end

mutual

theorem JValue.beq_iff : ∀ a b : JValue, JValue.beq a b = true ↔ a = b
  | vnull, b => by cases b <;> simp [JValue.beq]
  | vbool a, b => by cases b <;> simp [JValue.beq]
  | vint a, b => by cases b <;> simp [JValue.beq]
  | vstr a, b => by cases b <;> simp [JValue.beq]
  | obj fs, b => by
      cases b <;> simp [JValue.beq]
      exact beqFields_iff fs _
  | arr xs, b => by
      cases b <;> simp [JValue.beq]
      exact beqItems_iff xs _

theorem beqFields_iff : ∀ a b : List (String × JValue), beqFields a b = true ↔ a = b
  | [], b => by cases b <;> simp [beqFields]
  | (k, v) :: r, [] => by simp [beqFields]
  | (k, v) :: r, (k2, v2) :: r2 => by
      simp [beqFields, JValue.beq_iff v v2, beqFields_iff r r2, and_assoc]

theorem beqItems_iff : ∀ a b : List JValue, beqItems a b = true ↔ a = b
  | [], b => by cases b <;> simp [beqItems]
  | x :: xs, [] => by simp [beqItems]
  | x :: xs, y :: ys => by
      simp [beqItems, JValue.beq_iff x y, beqItems_iff xs ys]

end

instance : DecidableEq JValue := fun a b => decidable_of_iff _ (JValue.beq_iff a b)

theorem jbeq_eval (a b : JValue) : (a == b) = JValue.beq a b := by
  by_cases h : a = b
  · subst h
    simp [(JValue.beq_iff a a).mpr rfl]
  · have h1 : (a == b) = false := beq_eq_false_iff_ne.mpr h
    have h2 : JValue.beq a b = false := by
      cases hb : JValue.beq a b
      · rfl
      · exact absurd ((JValue.beq_iff a b).mp hb) h
    rw [h1, h2]

/-! ## Ordered-dict primitives

Python dicts preserve insertion order; `d[k]` is `lookupKey`, `d[k] = v`
is `setKey` (overwrite in place, else append), `d.pop(k, None)` is
`removeKey`. -/

/-- First binding of `key`, like a Python dict lookup (`d.get(key)`). -/
def lookupKey {α : Type} : List (String × α) → String → Option α
  | [], _ => none
  | (k, v) :: rest, key => if k = key then some v else lookupKey rest key

/-- Dict assignment `d[key] = v`: overwrite in place, else append at the end. -/
def setKey {α : Type} : List (String × α) → String → α → List (String × α)
  | [], key, v => [(key, v)]
  | (k, w) :: rest, key, v =>
      if k = key then (k, v) :: rest else (k, w) :: setKey rest key v

/-- Dict deletion `d.pop(key, None)`. -/
def removeKey {α : Type} : List (String × α) → String → List (String × α)
  | [], _ => []
  | (k, w) :: rest, key =>
      if k = key then removeKey rest key else (k, w) :: removeKey rest key

/-- `item["id"]` of an array element, `vnull` for the (guarded-away) non-dict case. -/
def getId0 : JValue → JValue
  | obj fs => (lookupKey fs "id").getD vnull
  | _ => vnull

/-- The fields of a dict element, `[]` for the (guarded-away) non-dict case. -/
def fields0 : JValue → List (String × JValue)
  | obj fs => fs
  | _ => []

/-- `isinstance(item, dict) and "id" in item` — the per-element id test. -/
def isIdMap : JValue → Bool
  | obj fs => (lookupKey fs "id").isSome
  | _ => false

/-- `base_index`: the dict from element id to element fields built in
`MergeService._merge_arrays`. -/
abbrev MIndex := List (JValue × List (String × JValue))

def idxFind : MIndex → JValue → Option (List (String × JValue))
  | [], _ => none
  | (i, fs) :: rest, key => if i = key then some fs else idxFind rest key

def idxSet : MIndex → JValue → List (String × JValue) → MIndex
  | [], key, fs => [(key, fs)]
  | (i, g) :: rest, key, fs =>
      if i = key then (i, fs) :: rest else (i, g) :: idxSet rest key fs

/-- `{item["id"]: item for item in base_arr}` (a later duplicate id overwrites
an earlier one, as in a Python dict comprehension). -/
def buildIndex (base : List JValue) : MIndex :=
  base.foldl (fun acc it => idxSet acc (getId0 it) (fields0 it)) []

/-- One of the two result-assembly loops at the end of
`MergeService._merge_arrays`: walk `items`, skip ids already in `seen`,
and emit `base_index[item_id]` for each new id.  Returns the emitted
elements together with the extended `seen` set. -/
def pickItems (idx : MIndex) : List JValue → List JValue → List JValue × List JValue
  | [], seen => ([], seen)
  | it :: rest, seen =>
      let i := getId0 it
      if i ∈ seen then pickItems idx rest seen
      else
        let p := pickItems idx rest (i :: seen)
        (obj ((idxFind idx i).getD []) :: p.1, p.2)

theorem sizeOf_fields0_lt (v : JValue) : sizeOf (fields0 v) < 1 + sizeOf v := by
  cases v <;> simp [fields0] <;> omega

mutual

/-- `MergeService._merge_into(target, source)`: returns the mutated target
(the embedding is pure, so mutation becomes returning the new dict).
Deep copies are the identity on immutable values. -/
def mergeInto : List (String × JValue) → List (String × JValue) → List (String × JValue)
  | t, [] => t
  | t, (k, sv) :: rest =>
      match lookupKey t k with
      | none => mergeInto (t ++ [(k, sv)]) rest
      | some tv =>
        match tv, sv with
        | obj tf, obj sf => mergeInto (setKey t k (obj (mergeInto tf sf))) rest
        | arr ta, arr sa => mergeInto (setKey t k (arr (mergeArrays ta sa))) rest
        | _, _ => mergeInto (setKey t k sv) rest
termination_by t s => (sizeOf s, 1)
decreasing_by
  all_goals simp_wf
  all_goals first
    | (apply Prod.Lex.right; omega)
    | (apply Prod.Lex.left; omega)

/-- `MergeService._merge_arrays(base_arr, override_arr)`. -/
def mergeArrays : List JValue → List JValue → List JValue
  | base, ov =>
      if base = [] ∨ ov = [] then (if ov ≠ [] then ov else base)
      else if ¬ (base.all isIdMap ∧ ov.all isIdMap) then ov
      else
        let idx := ovLoop (buildIndex base) ov
        let p1 := pickItems idx base []
        let p2 := pickItems idx ov p1.2
        p1.1 ++ p2.1
termination_by b o => (sizeOf o, 2)
decreasing_by
  simp_wf
  apply Prod.Lex.right
  omega

/-- The `for item in override_arr` loop of `_merge_arrays`: merge each
override element into `base_index` by id. -/
def ovLoop : MIndex → List JValue → MIndex
  | idx, [] => idx
  | idx, it :: rest =>
      match idxFind idx (getId0 it) with
      | some tf => ovLoop (idxSet idx (getId0 it) (mergeInto tf (fields0 it))) rest
      | none => ovLoop (idxSet idx (getId0 it) (fields0 it)) rest
termination_by idx its => (sizeOf its, 1)
decreasing_by
  all_goals simp_wf
  all_goals first
    | (apply Prod.Lex.right; omega)
    | (apply Prod.Lex.left; omega)
    | (apply Prod.Lex.left
       have := sizeOf_fields0_lt it
       omega)

end

/-- `MergeService.deep_merge(base, override)`: deep-copy the base and merge
the override into it. -/
def deepMerge (base ov : List (String × JValue)) : List (String × JValue) :=
  mergeInto base ov

mutual

/-- Well-formedness of a document as a Python value: dict keys are unique
at every level (Python dicts cannot repeat keys), and any list whose
elements all carry an `id` has pairwise-distinct ids (the "stable id"
assumption of the keyed array merge). -/
def WFDoc : JValue → Bool
  | obj fs => decide (fs.map Prod.fst).Nodup && WFFields fs
  | arr its => WFItems its && (!(its.all isIdMap) || decide (its.map getId0).Nodup)
  | _ => true

def WFFields : List (String × JValue) → Bool
  | [] => true
  | (_, v) :: r => WFDoc v && WFFields r

def WFItems : List JValue → Bool
  | [] => true
  | v :: r => WFDoc v && WFItems r

end

/-! ## Dictionary and index lemmas -/

theorem lookupKey_setKey {α : Type} (m : List (String × α)) (k j : String) (v : α) :
    lookupKey (setKey m k v) j = if k = j then some v else lookupKey m j := by
  induction m with
  | nil => by_cases h : k = j <;> simp [setKey, lookupKey, h]
  | cons kv rest ih =>
      obtain ⟨k2, w⟩ := kv
      by_cases h2 : k2 = k
      · subst h2
        by_cases h : k2 = j <;> simp [setKey, lookupKey, h]
      · by_cases h : k2 = j
        · subst h
          simp [setKey, h2, lookupKey]
          rw [if_neg (fun h3 => h2 h3.symm)]
        · simp [setKey, h2, lookupKey, h, ih]

theorem lookupKey_append {α : Type} (l1 l2 : List (String × α)) (j : String) :
    lookupKey (l1 ++ l2) j =
      match lookupKey l1 j with
      | some v => some v
      | none => lookupKey l2 j := by
  induction l1 with
  | nil => simp [lookupKey]
  | cons kv rest ih =>
      obtain ⟨k, v⟩ := kv
      by_cases h : k = j <;> simp [lookupKey, h, ih]

theorem setKey_self {α : Type} (m : List (String × α)) (k : String) (v : α)
    (h : lookupKey m k = some v) : setKey m k v = m := by
  induction m with
  | nil => simp [lookupKey] at h
  | cons kv rest ih =>
      obtain ⟨k2, w⟩ := kv
      by_cases h2 : k2 = k
      · subst h2
        simp [lookupKey] at h
        simp [setKey, h]
      · simp [lookupKey, h2] at h
        simp [setKey, h2, ih h]

theorem idxFind_idxSet (m : MIndex) (k j : JValue) (fs : List (String × JValue)) :
    idxFind (idxSet m k fs) j = if k = j then some fs else idxFind m j := by
  induction m with
  | nil => by_cases h : k = j <;> simp [idxSet, idxFind, h]
  | cons kv rest ih =>
      obtain ⟨i, g⟩ := kv
      by_cases h2 : i = k
      · subst h2
        by_cases h : i = j <;> simp [idxSet, idxFind, h]
      · by_cases h : i = j
        · subst h
          simp [idxSet, h2, idxFind]
          rw [if_neg (fun h3 => h2 h3.symm)]
        · simp [idxSet, h2, idxFind, h, ih]

theorem lookupKey_of_mem_nodup {α : Type} (m : List (String × α)) (k : String) (v : α)
    (hn : (m.map Prod.fst).Nodup) (hm : (k, v) ∈ m) : lookupKey m k = some v := by
  induction m with
  | nil => simp at hm
  | cons kv rest ih =>
      obtain ⟨k2, w⟩ := kv
      simp only [List.map_cons, List.nodup_cons] at hn
      rcases List.mem_cons.mp hm with h | h
      · rw [Prod.mk.injEq] at h
        obtain ⟨rfl, rfl⟩ := h
        simp [lookupKey]
      · have hk : k2 ≠ k := by
          intro he
          apply hn.1
          have h3 := List.mem_map_of_mem Prod.fst h
          simpa [he] using h3
        simp [lookupKey, hk, ih hn.2 h]

theorem WFFields_val_mem (s : List (String × JValue)) (k : String) (v : JValue)
    (hwf : WFFields s = true) (hm : (k, v) ∈ s) : WFDoc v = true := by
  induction s with
  | nil => simp at hm
  | cons kv rest ih =>
      obtain ⟨k2, w⟩ := kv
      simp only [WFFields, Bool.and_eq_true] at hwf
      rcases List.mem_cons.mp hm with h | h
      · rw [Prod.mk.injEq] at h
        exact h.2 ▸ hwf.1
      · exact ih hwf.2 h

theorem WFItems_mem (l : List JValue) (it : JValue)
    (hwf : WFItems l = true) (hm : it ∈ l) : WFDoc it = true := by
  induction l with
  | nil => simp at hm
  | cons x rest ih =>
      simp only [WFItems, Bool.and_eq_true] at hwf
      rcases List.mem_cons.mp hm with h | h
      · exact h ▸ hwf.1
      · exact ih hwf.2 h

theorem obj_fields0_of_isIdMap (it : JValue) (h : isIdMap it = true) :
    JValue.obj (fields0 it) = it := by
  cases it with
  | obj fs => simp [fields0]
  | vnull => simp [isIdMap] at h
  | vbool b => simp [isIdMap] at h
  | vint n => simp [isIdMap] at h
  | vstr s2 => simp [isIdMap] at h
  | arr xs => simp [isIdMap] at h

theorem idsFind_eq_none_iff (l : List JValue) (i : JValue) :
    l.find? (fun x => getId0 x == i) = none ↔ i ∉ l.map getId0 := by
  rw [List.find?_eq_none]
  constructor
  · intro h hmem
    rw [List.mem_map] at hmem
    obtain ⟨x, hx, he⟩ := hmem
    apply h x hx
    rw [he]
    exact beq_self_eq_true i
  · intro h x hx hbeq
    exact h (List.mem_map.mpr ⟨x, hx, eq_of_beq hbeq⟩)

theorem idsFind_self (l : List JValue) (it : JValue)
    (hn : (l.map getId0).Nodup) (hm : it ∈ l) :
    l.find? (fun x => getId0 x == getId0 it) = some it := by
  induction l with
  | nil => simp at hm
  | cons x rest ih =>
      simp only [List.map_cons, List.nodup_cons] at hn
      rcases List.mem_cons.mp hm with h | h
      · subst h
        simp [List.find?]
      · have hx : getId0 x ≠ getId0 it := by
          intro he
          exact hn.1 (he ▸ List.mem_map_of_mem getId0 h)
        simp only [List.find?, beq_eq_false_iff_ne.mpr hx]
        exact ih hn.2 h

/-! ## Characterizing the keyed array merge -/

theorem buildIndex_go (l : List JValue) (acc : MIndex) (i : JValue)
    (hn : (l.map getId0).Nodup) :
    idxFind (l.foldl (fun a it => idxSet a (getId0 it) (fields0 it)) acc) i =
      if i ∈ l.map getId0 then (l.find? (fun it => getId0 it == i)).map fields0
      else idxFind acc i := by
  induction l generalizing acc with
  | nil => simp
  | cons it rest ih =>
      simp only [List.map_cons, List.nodup_cons] at hn
      rw [List.foldl_cons, ih _ hn.2]
      by_cases hi : i ∈ rest.map getId0
      · have hne : getId0 it ≠ i := fun he => hn.1 (he ▸ hi)
        rw [if_pos hi, if_pos (by simp [hi]),
          List.find?_cons_of_neg _ (by simp [hne])]
      · rw [if_neg hi, idxFind_idxSet]
        by_cases he : getId0 it = i
        · rw [if_pos he, if_pos (by simp [he]),
            List.find?_cons_of_pos _ (by simp [he])]
          simp
        · have hnm : i ∉ List.map getId0 (it :: rest) := by
            simp only [List.map_cons, List.mem_cons]
            rintro (h1 | h1)
            · exact he h1.symm
            · exact hi h1
          rw [if_neg he, if_neg hnm]

theorem buildIndex_find (base : List JValue) (i : JValue)
    (hn : (base.map getId0).Nodup) :
    idxFind (buildIndex base) i =
      if i ∈ base.map getId0 then (base.find? (fun it => getId0 it == i)).map fields0
      else none := by
  rw [buildIndex, buildIndex_go base [] i hn]
  rfl

theorem ovLoop_find (ov : List JValue) (acc : MIndex) (i : JValue)
    (hn : (ov.map getId0).Nodup) :
    idxFind (ovLoop acc ov) i =
      match ov.find? (fun o => getId0 o == i) with
      | some o =>
          some (match idxFind acc i with
            | some tf => mergeInto tf (fields0 o)
            | none => fields0 o)
      | none => idxFind acc i := by
  induction ov generalizing acc with
  | nil => simp [ovLoop]
  | cons o rest ih =>
      simp only [List.map_cons, List.nodup_cons] at hn
      have hstep : ovLoop acc (o :: rest) =
          ovLoop (idxSet acc (getId0 o)
            (match idxFind acc (getId0 o) with
             | some tf => mergeInto tf (fields0 o)
             | none => fields0 o)) rest := by
        cases hfind : idxFind acc (getId0 o) <;> simp [ovLoop, hfind]
      rw [hstep, ih _ hn.2]
      by_cases he : getId0 o = i
      · subst he
        rw [(idsFind_eq_none_iff rest (getId0 o)).mpr hn.1,
          List.find?_cons_of_pos _ (by simp)]
        rw [idxFind_idxSet, if_pos rfl]
      · rw [List.find?_cons_of_neg _ (by simp [he])]
        have hset : idxFind (idxSet acc (getId0 o)
            (match idxFind acc (getId0 o) with
             | some tf => mergeInto tf (fields0 o)
             | none => fields0 o)) i = idxFind acc i := by
          rw [idxFind_idxSet, if_neg he]
        cases hf : rest.find? (fun x => getId0 x == i) <;> simp [hf, hset]

theorem pickItems_snd_mem (idx : MIndex) (items : List JValue) (seen : List JValue)
    (j : JValue) :
    j ∈ (pickItems idx items seen).2 ↔ j ∈ seen ∨ j ∈ items.map getId0 := by
  induction items generalizing seen with
  | nil => simp [pickItems]
  | cons it rest ih =>
      by_cases hs : getId0 it ∈ seen
      · rw [pickItems]
        simp only [if_pos hs, ih]
        constructor
        · rintro (h | h)
          · exact Or.inl h
          · refine Or.inr ?_
            simp only [List.map_cons, List.mem_cons]
            exact Or.inr h
        · rintro (h | h)
          · exact Or.inl h
          · simp only [List.map_cons, List.mem_cons] at h
            rcases h with h2 | h2
            · refine Or.inl ?_
              rw [h2]
              exact hs
            · exact Or.inr h2
      · rw [pickItems]
        simp only [if_neg hs, ih, List.mem_cons, List.map_cons]
        tauto

theorem pickItems_fst (idx : MIndex) (items : List JValue) (seen : List JValue)
    (hn : (items.map getId0).Nodup) :
    (pickItems idx items seen).1 =
      (items.filter (fun it => !(decide (getId0 it ∈ seen)))).map
        (fun it => JValue.obj ((idxFind idx (getId0 it)).getD [])) := by
  induction items generalizing seen with
  | nil => simp [pickItems]
  | cons it rest ih =>
      simp only [List.map_cons, List.nodup_cons] at hn
      by_cases hs : getId0 it ∈ seen
      · rw [pickItems]
        simp only [if_pos hs, ih _ hn.2]
        rw [List.filter_cons_of_neg (by simp [hs])]
      · rw [pickItems]
        simp only [if_neg hs, ih _ hn.2]
        rw [List.filter_cons_of_pos (by simp [hs])]
        simp only [List.map_cons]
        congr 2
        apply List.filter_congr
        intro x hx
        have hne : getId0 x ≠ getId0 it :=
          fun he => hn.1 (he ▸ List.mem_map_of_mem getId0 hx)
        simp [List.mem_cons, hne]

theorem mergeArrays_nil_left (ov : List JValue) : mergeArrays [] ov = ov := by
  rw [mergeArrays]
  by_cases h : ov = []
  · subst h; simp
  · simp [h]

theorem mergeArrays_nil_right (base : List JValue) : mergeArrays base [] = base := by
  rw [mergeArrays]
  simp

theorem mergeArrays_not_keyed (base ov : List JValue) (hbe : base ≠ []) (hoe : ov ≠ [])
    (h : ¬(base.all isIdMap = true ∧ ov.all isIdMap = true)) :
    mergeArrays base ov = ov := by
  have h1 : ¬(base = [] ∨ ov = []) := by
    rintro (h2 | h2)
    · exact hbe h2
    · exact hoe h2
  rw [mergeArrays, if_neg h1, if_pos h]

theorem mergeArrays_eq_main (base ov : List JValue) (hbe : base ≠ []) (hoe : ov ≠ [])
    (hb : base.all isIdMap = true) (ho : ov.all isIdMap = true) :
    mergeArrays base ov =
      (pickItems (ovLoop (buildIndex base) ov) base []).1 ++
      (pickItems (ovLoop (buildIndex base) ov) ov
        (pickItems (ovLoop (buildIndex base) ov) base []).2).1 := by
  have h1 : ¬(base = [] ∨ ov = []) := by
    rintro (h2 | h2)
    · exact hbe h2
    · exact hoe h2
  have h2 : ¬¬(base.all isIdMap = true ∧ ov.all isIdMap = true) :=
    fun hc => hc ⟨hb, ho⟩
  rw [mergeArrays, if_neg h1, if_neg h2]

/-- Full characterization of `_merge_arrays` on id-keyed inputs with
pairwise-distinct ids: base elements in order, each recursively merged with
the override element of matching id when present, followed by the
override-only elements in their order. -/
theorem mergeArrays_keyed_core (base ov : List JValue)
    (hb : base.all isIdMap = true) (ho : ov.all isIdMap = true)
    (hnb : (base.map getId0).Nodup) (hno : (ov.map getId0).Nodup) :
    mergeArrays base ov =
      base.map (fun it =>
        match ov.find? (fun o => getId0 o == getId0 it) with
        | some o => JValue.obj (mergeInto (fields0 it) (fields0 o))
        | none => it)
      ++ ov.filter (fun o => !(decide (getId0 o ∈ base.map getId0))) := by
  by_cases hbe : base = []
  · subst hbe
    rw [mergeArrays_nil_left, List.map_nil, List.nil_append]
    exact (List.filter_eq_self.mpr (by intro o ho2; simp)).symm
  · by_cases hoe : ov = []
    · subst hoe
      rw [mergeArrays_nil_right, List.filter_nil, List.append_nil]
      symm
      have hf : ∀ it ∈ base,
          (match ([] : List JValue).find? (fun o => getId0 o == getId0 it) with
           | some o => JValue.obj (mergeInto (fields0 it) (fields0 o))
           | none => it) = it := by
        intro it hit
        simp [List.find?]
      rw [List.map_congr_left hf]
      simp
    · rw [mergeArrays_eq_main base ov hbe hoe hb ho]
      set idx := ovLoop (buildIndex base) ov with hidx
      have hfind1 : ∀ it ∈ base, idxFind idx (getId0 it) =
          some (match ov.find? (fun o => getId0 o == getId0 it) with
                | some o => mergeInto (fields0 it) (fields0 o)
                | none => fields0 it) := by
        intro it hit
        rw [hidx, ovLoop_find ov _ _ hno, buildIndex_find base _ hnb,
          if_pos (List.mem_map_of_mem getId0 hit), idsFind_self base it hnb hit]
        cases hf : ov.find? (fun o => getId0 o == getId0 it) <;> simp [hf]
      have hp1 : (pickItems idx base []).1 =
          base.map (fun it => JValue.obj ((idxFind idx (getId0 it)).getD [])) := by
        rw [pickItems_fst idx base [] hnb,
          List.filter_eq_self.mpr (by intro x hx; simp)]
      have hp1b : (pickItems idx base []).1 =
          base.map (fun it =>
            match ov.find? (fun o => getId0 o == getId0 it) with
            | some o => JValue.obj (mergeInto (fields0 it) (fields0 o))
            | none => it) := by
        rw [hp1]
        apply List.map_congr_left
        intro it hit
        rw [hfind1 it hit]
        have hid : isIdMap it = true := List.all_eq_true.mp hb it hit
        cases hf : ov.find? (fun o => getId0 o == getId0 it) with
        | some o => simp
        | none => simpa using obj_fields0_of_isIdMap it hid
      have hseen : ∀ j, j ∈ (pickItems idx base []).2 ↔ j ∈ base.map getId0 := by
        intro j
        rw [pickItems_snd_mem]
        simp
      have hp2 : (pickItems idx ov (pickItems idx base []).2).1 =
          (ov.filter (fun o => !(decide (getId0 o ∈ base.map getId0)))).map
            (fun o => JValue.obj ((idxFind idx (getId0 o)).getD [])) := by
        rw [pickItems_fst idx ov _ hno]
        congr 1
        apply List.filter_congr
        intro o ho2
        rw [decide_eq_decide.mpr (hseen (getId0 o))]
      have hfind2 : ∀ o ∈ ov, getId0 o ∉ base.map getId0 →
          JValue.obj ((idxFind idx (getId0 o)).getD []) = o := by
        intro o ho2 hnm
        rw [hidx, ovLoop_find ov _ _ hno, idsFind_self ov o hno ho2,
          buildIndex_find base _ hnb, if_neg hnm]
        simpa using obj_fields0_of_isIdMap o (List.all_eq_true.mp ho o ho2)
      have hp2b : (pickItems idx ov (pickItems idx base []).2).1 =
          ov.filter (fun o => !(decide (getId0 o ∈ base.map getId0))) := by
        rw [hp2]
        have hmap : ∀ o ∈ ov.filter (fun o => !(decide (getId0 o ∈ base.map getId0))),
            JValue.obj ((idxFind idx (getId0 o)).getD []) = o := by
          intro o hmem
          have h3 := List.mem_filter.mp hmem
          exact hfind2 o h3.1 (by simpa using h3.2)
        rw [List.map_congr_left hmap]
        simp
      rw [hp1b, hp2b]

/-! ## Self-merge (idempotence on well-formed documents) -/

theorem mergeInto_nil (t : List (String × JValue)) : mergeInto t [] = t := by
  rw [mergeInto]

theorem mergeInto_cons (t : List (String × JValue)) (k : String) (sv : JValue)
    (rest : List (String × JValue)) :
    mergeInto t ((k, sv) :: rest) =
      match lookupKey t k with
      | none => mergeInto (t ++ [(k, sv)]) rest
      | some tv =>
        match tv, sv with
        | JValue.obj tf, JValue.obj sf =>
            mergeInto (setKey t k (JValue.obj (mergeInto tf sf))) rest
        | JValue.arr ta, JValue.arr sa =>
            mergeInto (setKey t k (JValue.arr (mergeArrays ta sa))) rest
        | _, _ => mergeInto (setKey t k sv) rest := by
  rw [mergeInto]

theorem mergeSelfAux (n : Nat) :
    (∀ s t : List (String × JValue), sizeOf s ≤ n →
        (∀ k v, (k, v) ∈ s → lookupKey t k = some v) →
        WFFields s = true → mergeInto t s = t) ∧
    (∀ l : List JValue, sizeOf l ≤ n → WFItems l = true →
        (l.all isIdMap = true → (l.map getId0).Nodup) → mergeArrays l l = l) := by
  induction n using Nat.strong_induction_on with
  | _ n IH =>
    constructor
    · intro s t hs hlk hwf
      cases s with
      | nil => exact mergeInto_nil t
      | cons kv rest =>
          obtain ⟨k, sv⟩ := kv
          have hlk0 : lookupKey t k = some sv := hlk k sv (by simp)
          have hszc : sizeOf ((k, sv) :: rest) = 1 + (1 + sizeOf k + sizeOf sv) + sizeOf rest := by
            simp
          have hszrest : sizeOf rest < n := by omega
          have hszsv : sizeOf sv < n := by omega
          have hrest : ∀ k2 v2, (k2, v2) ∈ rest → lookupKey t k2 = some v2 :=
            fun k2 v2 hm => hlk k2 v2 (by simp [hm])
          have hwf2 : WFFields rest = true := by
            simp only [WFFields, Bool.and_eq_true] at hwf
            exact hwf.2
          have hwfv : WFDoc sv = true := by
            simp only [WFFields, Bool.and_eq_true] at hwf
            exact hwf.1
          have IHrest : mergeInto t rest = t :=
            (IH (sizeOf rest) hszrest).1 rest t le_rfl hrest hwf2
          cases sv with
          | vnull =>
              simp only [mergeInto_cons, hlk0]
              rw [setKey_self t k _ hlk0, IHrest]
          | vbool b =>
              simp only [mergeInto_cons, hlk0]
              rw [setKey_self t k _ hlk0, IHrest]
          | vint m =>
              simp only [mergeInto_cons, hlk0]
              rw [setKey_self t k _ hlk0, IHrest]
          | vstr z =>
              simp only [mergeInto_cons, hlk0]
              rw [setKey_self t k _ hlk0, IHrest]
          | obj sf =>
              have hnodk : (sf.map Prod.fst).Nodup := by
                simp only [WFDoc, Bool.and_eq_true, decide_eq_true_eq] at hwfv
                exact hwfv.1
              have hwfsf : WFFields sf = true := by
                simp only [WFDoc, Bool.and_eq_true] at hwfv
                exact hwfv.2
              have hszsf : sizeOf sf < n := by
                have hsz2 : sizeOf (JValue.obj sf) = 1 + sizeOf sf := by simp
                omega
              have hsf : mergeInto sf sf = sf :=
                (IH (sizeOf sf) hszsf).1 sf sf le_rfl
                  (fun k2 v2 hm => lookupKey_of_mem_nodup sf k2 v2 hnodk hm) hwfsf
              simp only [mergeInto_cons, hlk0]
              rw [hsf, setKey_self t k _ hlk0, IHrest]
          | arr sa =>
              have hwfa : WFItems sa = true := by
                simp only [WFDoc, Bool.and_eq_true] at hwfv
                exact hwfv.1
              have hnoda : sa.all isIdMap = true → (sa.map getId0).Nodup := by
                intro hall
                simp only [WFDoc, Bool.and_eq_true] at hwfv
                have h3 := hwfv.2
                rw [hall] at h3
                simpa using h3
              have hszsa : sizeOf sa < n := by
                have hsz2 : sizeOf (JValue.arr sa) = 1 + sizeOf sa := by simp
                omega
              have hsa : mergeArrays sa sa = sa :=
                (IH (sizeOf sa) hszsa).2 sa le_rfl hwfa hnoda
              simp only [mergeInto_cons, hlk0]
              rw [hsa, setKey_self t k _ hlk0, IHrest]
    · intro l hs hwfi hnod
      by_cases hle : l = []
      · subst hle
        exact mergeArrays_nil_left []
      · by_cases hids : l.all isIdMap = true
        · have hnd := hnod hids
          rw [mergeArrays_keyed_core l l hids hids hnd hnd]
          have hmap : ∀ it ∈ l,
              (match l.find? (fun o => getId0 o == getId0 it) with
               | some o => JValue.obj (mergeInto (fields0 it) (fields0 o))
               | none => it) = it := by
            intro it hit
            rw [idsFind_self l it hnd hit]
            have hWFit : WFDoc it = true := WFItems_mem l it hwfi hit
            have hidm : isIdMap it = true := List.all_eq_true.mp hids it hit
            have hszit : sizeOf it < sizeOf l := List.sizeOf_lt_of_mem hit
            cases it with
            | vnull => simp [isIdMap] at hidm
            | vbool b => simp [isIdMap] at hidm
            | vint m => simp [isIdMap] at hidm
            | vstr z => simp [isIdMap] at hidm
            | arr xs => simp [isIdMap] at hidm
            | obj fs =>
                have hnodk : (fs.map Prod.fst).Nodup := by
                  simp only [WFDoc, Bool.and_eq_true, decide_eq_true_eq] at hWFit
                  exact hWFit.1
                have hwffs : WFFields fs = true := by
                  simp only [WFDoc, Bool.and_eq_true] at hWFit
                  exact hWFit.2
                have hszfs : sizeOf fs < n := by
                  have hsz2 : sizeOf (JValue.obj fs) = 1 + sizeOf fs := by simp
                  omega
                have hfs : mergeInto fs fs = fs :=
                  (IH (sizeOf fs) hszfs).1 fs fs le_rfl
                    (fun k2 v2 hm => lookupKey_of_mem_nodup fs k2 v2 hnodk hm) hwffs
                simp [fields0, hfs]
          rw [List.map_congr_left hmap]
          have hfilt : l.filter (fun o => !(decide (getId0 o ∈ l.map getId0))) = [] := by
            rw [List.filter_eq_nil_iff]
            intro o ho2
            simp [List.mem_map_of_mem getId0 ho2]
          rw [hfilt, List.append_nil]
          simp
        · exact mergeArrays_not_keyed l l hle hle (fun hc => hids hc.1)

/-- Idempotent self-merge of a well-formed dict. -/
theorem mergeInto_self (s : List (String × JValue))
    (hn : (s.map Prod.fst).Nodup) (hwf : WFFields s = true) :
    mergeInto s s = s :=
  (mergeSelfAux (sizeOf s)).1 s s le_rfl
    (fun k v hm => lookupKey_of_mem_nodup s k v hn hm) hwf

/-! ## Claims C4, C5, C6 — the merge engine -/

/-- C4 (amended): for id-keyed array pairs whose ids are pairwise distinct
within each list, `deepMerge`'s array merge yields the base elements in
their original order — each recursively merged with the override element of
matching id when one exists — followed by the override-only elements in
their original order.  (The distinct-ids hypothesis is forced by
`claim4_counterexample`: with a duplicated id the code collapses the
duplicates through its id-keyed index.) -/
theorem claim4_array_merge_by_id (base ov : List JValue)
    (hb : base.all isIdMap = true) (ho : ov.all isIdMap = true)
    (hnb : (base.map getId0).Nodup) (hno : (ov.map getId0).Nodup) :
    mergeArrays base ov =
      base.map (fun it =>
        match ov.find? (fun o => getId0 o == getId0 it) with
        | some o => JValue.obj (mergeInto (fields0 it) (fields0 o))
        | none => it)
      ++ ov.filter (fun o => !(decide (getId0 o ∈ base.map getId0))) :=
  mergeArrays_keyed_core base ov hb ho hnb hno

/-- Witness for C4: the specification's own example,
`deepMerge({items:[{id:1,a:1},{id:2,a:2}]}, {items:[{id:2,a:9},{id:3,a:3}]})`
yields `items == [{id:1,a:1},{id:2,a:9},{id:3,a:3}]`. -/
theorem claim4_witness :
    deepMerge
      [("items", JValue.arr [JValue.obj [("id", JValue.vint 1), ("a", JValue.vint 1)],
        JValue.obj [("id", JValue.vint 2), ("a", JValue.vint 2)]])]
      [("items", JValue.arr [JValue.obj [("id", JValue.vint 2), ("a", JValue.vint 9)],
        JValue.obj [("id", JValue.vint 3), ("a", JValue.vint 3)]])] =
      [("items", JValue.arr [JValue.obj [("id", JValue.vint 1), ("a", JValue.vint 1)],
        JValue.obj [("id", JValue.vint 2), ("a", JValue.vint 9)],
        JValue.obj [("id", JValue.vint 3), ("a", JValue.vint 3)]])] := by
  have h := claim4_array_merge_by_id
    [JValue.obj [("id", JValue.vint 1), ("a", JValue.vint 1)],
     JValue.obj [("id", JValue.vint 2), ("a", JValue.vint 2)]]
    [JValue.obj [("id", JValue.vint 2), ("a", JValue.vint 9)],
     JValue.obj [("id", JValue.vint 3), ("a", JValue.vint 3)]]
    (by decide) (by decide) (by decide) (by decide)
  have hstep : deepMerge
      [("items", JValue.arr [JValue.obj [("id", JValue.vint 1), ("a", JValue.vint 1)],
        JValue.obj [("id", JValue.vint 2), ("a", JValue.vint 2)]])]
      [("items", JValue.arr [JValue.obj [("id", JValue.vint 2), ("a", JValue.vint 9)],
        JValue.obj [("id", JValue.vint 3), ("a", JValue.vint 3)]])] =
      [("items", JValue.arr (mergeArrays
        [JValue.obj [("id", JValue.vint 1), ("a", JValue.vint 1)],
         JValue.obj [("id", JValue.vint 2), ("a", JValue.vint 2)]]
        [JValue.obj [("id", JValue.vint 2), ("a", JValue.vint 9)],
         JValue.obj [("id", JValue.vint 3), ("a", JValue.vint 3)]]))] := by
    simp [deepMerge, mergeInto_cons, mergeInto_nil, lookupKey, setKey]
  rw [hstep, h]
  simp only [List.map_cons, List.map_nil]
  simp [List.find?, getId0, fields0, lookupKey, mergeInto_cons, mergeInto_nil, setKey,
    jbeq_eval, JValue.beq, beqFields, beqItems, List.filter_cons]

/-- Counterexample for C4 as stated: with a duplicated id in the base list
(every element still a map with an `id` field), the merged `items` list has
a single element although the base list has two — so the result is not
"all base elements in their original order followed by the override-only
elements". -/
theorem claim4_counterexample :
    deepMerge
      [("items", JValue.arr [JValue.obj [("id", JValue.vint 1), ("a", JValue.vint 1)],
        JValue.obj [("id", JValue.vint 1), ("a", JValue.vint 2)]])]
      [("items", JValue.arr [JValue.obj [("id", JValue.vint 1), ("a", JValue.vint 9)]])] =
      [("items", JValue.arr [JValue.obj [("id", JValue.vint 1), ("a", JValue.vint 9)]])] ∧
    ([JValue.obj [("id", JValue.vint 1), ("a", JValue.vint 9)]] : List JValue).length ≠
      ([JValue.obj [("id", JValue.vint 1), ("a", JValue.vint 1)],
        JValue.obj [("id", JValue.vint 1), ("a", JValue.vint 2)]] : List JValue).length := by
  constructor
  · simp [deepMerge, mergeInto_cons, mergeInto_nil, mergeArrays, ovLoop, pickItems,
      buildIndex, lookupKey, setKey, idxFind, idxSet, getId0, fields0, isIdMap,
      List.all, List.find?, JValue.beq, beqFields, beqItems]
  · decide

/-- C5 (amended): when both lists are non-empty and at least one element of
either list is not an id-bearing map, the override list fully replaces the
base list.  When the override list is empty (and the base list is not), the
code keeps the base list instead — the "including when the override list is
empty" part of the claim fails, see `claim5_counterexample`.  When the base
list is empty the override list is the result. -/
theorem claim5_array_replace (base ov : List JValue) :
    (base ≠ [] → ov ≠ [] → ¬(base.all isIdMap = true ∧ ov.all isIdMap = true) →
      mergeArrays base ov = ov) ∧
    (base = [] → mergeArrays base ov = ov) ∧
    (ov = [] → mergeArrays base ov = base) := by
  refine ⟨fun h1 h2 h3 => mergeArrays_not_keyed base ov h1 h2 h3, fun h => ?_, fun h => ?_⟩
  · subst h
    exact mergeArrays_nil_left ov
  · subst h
    exact mergeArrays_nil_right base

/-- Witness for C5: a scalar base element fails the id test, so a non-empty
override list replaces the base list wholesale. -/
theorem claim5_witness :
    mergeArrays [JValue.vint 1, JValue.obj [("id", JValue.vint 7)]] [JValue.vstr "a"] =
      [JValue.vstr "a"] :=
  (claim5_array_replace _ _).1 (by decide) (by decide) (by decide)

/-- Counterexample for C5 as stated: with base `[1]` (not id-bearing) and an
EMPTY override list, the code returns a copy of the base list, not the
override list. -/
theorem claim5_counterexample :
    deepMerge [("k", JValue.arr [JValue.vint 1])] [("k", JValue.arr [])] =
      [("k", JValue.arr [JValue.vint 1])] ∧
    JValue.arr [JValue.vint 1] ≠ JValue.arr [] := by
  constructor
  · simp [deepMerge, mergeInto_cons, mergeInto_nil, mergeArrays_nil_right, lookupKey, setKey]
  · decide

/-- C6 (amended): `deepMerge(X, X) = X` for every well-formed document `X`:
dict keys unique at every level (true of every Python dict) and ids
pairwise distinct in every id-keyed list.  The distinct-ids restriction is
forced by `claim6_counterexample`. -/
theorem claim6_deep_merge_idempotent (X : List (String × JValue))
    (hn : (X.map Prod.fst).Nodup) (hwf : WFFields X = true) :
    deepMerge X X = X :=
  mergeInto_self X hn hwf

/-- Witness for C6 on a concrete nested document. -/
theorem claim6_witness :
    deepMerge
      [("a", JValue.vint 1), ("b", JValue.obj [("c", JValue.vstr "x")]),
       ("items", JValue.arr [JValue.obj [("id", JValue.vint 1)], JValue.vnull])]
      [("a", JValue.vint 1), ("b", JValue.obj [("c", JValue.vstr "x")]),
       ("items", JValue.arr [JValue.obj [("id", JValue.vint 1)], JValue.vnull])] =
      [("a", JValue.vint 1), ("b", JValue.obj [("c", JValue.vstr "x")]),
       ("items", JValue.arr [JValue.obj [("id", JValue.vint 1)], JValue.vnull])] :=
  claim6_deep_merge_idempotent _ (by decide) (by decide)

/-- Counterexample for C6 as stated ("for every JSON-like document X"):
a document holding a list with a duplicated id is collapsed by
`deepMerge(X, X)`, so the result differs from `X`. -/
theorem claim6_counterexample :
    deepMerge
      [("k", JValue.arr [JValue.obj [("id", JValue.vint 1), ("a", JValue.vint 1)],
        JValue.obj [("id", JValue.vint 1), ("a", JValue.vint 2)]])]
      [("k", JValue.arr [JValue.obj [("id", JValue.vint 1), ("a", JValue.vint 1)],
        JValue.obj [("id", JValue.vint 1), ("a", JValue.vint 2)]])] ≠
      [("k", JValue.arr [JValue.obj [("id", JValue.vint 1), ("a", JValue.vint 1)],
        JValue.obj [("id", JValue.vint 1), ("a", JValue.vint 2)]])] := by
  have h : deepMerge
      [("k", JValue.arr [JValue.obj [("id", JValue.vint 1), ("a", JValue.vint 1)],
        JValue.obj [("id", JValue.vint 1), ("a", JValue.vint 2)]])]
      [("k", JValue.arr [JValue.obj [("id", JValue.vint 1), ("a", JValue.vint 1)],
        JValue.obj [("id", JValue.vint 1), ("a", JValue.vint 2)]])] =
      [("k", JValue.arr [JValue.obj [("id", JValue.vint 1), ("a", JValue.vint 2)]])] := by
    simp [deepMerge, mergeInto_cons, mergeInto_nil, mergeArrays, ovLoop, pickItems,
      buildIndex, lookupKey, setKey, idxFind, idxSet, getId0, fields0, isIdMap,
      List.all, List.find?, JValue.beq, beqFields, beqItems]
  rw [h]
  decide

/-! ## Page versioning — entity, repository and domain service

`PageVersion` mirrors `src/domain/entities/page_version.py`; the repository
functions mirror `PageRepositoryImpl` over an in-memory table (a list of
rows in insertion order); the service operations mirror
`PageDomainService`.  Each service operation returns the Python result (or
the raised `ValueError`, as `Except.error`) together with the repository
state at the moment the operation returns or raises — writes flushed
before an exception are kept, exactly as in the session the service runs
in. -/

inductive Scope where
  | global : Scope
  | tenant : Scope
deriving DecidableEq, Repr

inductive VersionStatus where
  | draft : VersionStatus
  | published : VersionStatus
  | archived : VersionStatus
deriving DecidableEq, Repr

structure PageVersion where
  id : String
  pageKey : String
  scope : Scope
  tenantId : Option String
  baseVersionId : Option String
  versionNumber : Nat
  schemaJson : List (String × JValue)
  status : VersionStatus
  createdAt : Nat
  updatedAt : Nat
deriving DecidableEq

abbrev PageState := List PageVersion

/-- Python truthiness of an optional tenant id (`if tenant_id:`). -/
def tidTruthy : Option String → Bool
  | some t => t ≠ ""
  | none => false

/-- `PageRepositoryImpl.get_by_id`. -/
def repoGetById (st : PageState) (vid : String) : Option PageVersion :=
  st.find? (fun v => v.id == vid)

/-- The WHERE clause of `PageRepositoryImpl.get_published`: page key, scope
and PUBLISHED status, plus `tenant_id = :tid` when `tid` is truthy and
`tenant_id IS NULL` otherwise. -/
def pubGroupPred (key : String) (sc : Scope) (tid : Option String) (w : PageVersion) : Bool :=
  w.pageKey == key && w.scope == sc && w.status == VersionStatus.published &&
    (if tidTruthy tid then w.tenantId == tid else w.tenantId == none)

/-- `PageRepositoryImpl.get_published` (`.limit(1)`, first matching row). -/
def repoGetPublished (st : PageState) (key : String) (sc : Scope) (tid : Option String) :
    Option PageVersion :=
  st.find? (pubGroupPred key sc tid)

/-- `PageRepositoryImpl.get_latest_version_number`: greatest version number
among the rows of the (key, scope[, tenant]) selection, `0` when empty. -/
def repoGetLatestVersionNumber (st : PageState) (key : String) (sc : Scope)
    (tid : Option String) : Nat :=
  (st.filter (fun v => v.pageKey == key && v.scope == sc &&
      (if tidTruthy tid then v.tenantId == tid else true))).foldl
    (fun m v => max m v.versionNumber) 0

/-- `PageRepositoryImpl.save`: insert a new row. -/
def repoSave (st : PageState) (v : PageVersion) : PageState := st ++ [v]

/-- `PageRepositoryImpl.update`: copy every entity field onto the row with
the same id and stamp `updated_at = now`; no-op when the id is absent. -/
def repoUpdateRow (st : PageState) (v : PageVersion) (now : Nat) : PageState :=
  st.map (fun w => if w.id = v.id then { v with updatedAt := now } else w)

/-- `PageDomainService.create_draft`. -/
def createDraft (st : PageState) (pageKey : String) (sc : Scope)
    (schemaJson : List (String × JValue)) (tid : Option String)
    (freshId : String) (now : Nat) : Except String PageVersion × PageState :=
  if sc == Scope.tenant && !(tidTruthy tid) then
    (Except.error "tenant_id is required for tenant-scoped pages.", st)
  else
    let latest := repoGetLatestVersionNumber st pageKey sc tid
    let baseId :=
      if sc == Scope.tenant then
        (repoGetPublished st pageKey Scope.global none).map (fun g => g.id)
      else none
    let draft : PageVersion :=
      { id := freshId, pageKey := pageKey, scope := sc, tenantId := tid,
        baseVersionId := baseId, versionNumber := latest + 1,
        schemaJson := schemaJson, status := VersionStatus.draft,
        createdAt := now, updatedAt := now }
    (Except.ok draft, repoSave st draft)

/-- The `ValueError` raised by `PageVersion.publish` on a non-DRAFT version. -/
def publishNonDraftMsg : String := "Cannot publish: only drafts can be published."

/-- `PageDomainService.publish`: archive the group's currently published
version (a write that is flushed BEFORE the draft check), then publish the
target, which raises if the target is not a draft. -/
def publish (st : PageState) (versionId : String) (now : Nat) :
    Except String PageVersion × PageState :=
  match repoGetById st versionId with
  | none => (Except.error "Version not found.", st)
  | some version =>
      let st1 :=
        match repoGetPublished st version.pageKey version.scope version.tenantId with
        | some currentPub =>
            repoUpdateRow st { currentPub with status := VersionStatus.archived } now
        | none => st
      if version.status ≠ VersionStatus.draft then
        (Except.error publishNonDraftMsg, st1)
      else
        let published := { version with status := VersionStatus.published, updatedAt := now }
        (Except.ok published, repoUpdateRow st1 published now)

/-- `PageDomainService.rollback`: note that the group whose published
version gets archived is determined by the CALLER-SUPPLIED scope and
tenant id, not by the target version's own group. -/
def rollback (st : PageState) (pageKey : String) (targetVersionId : String)
    (sc : Scope) (tid : Option String) (now : Nat) :
    Except String PageVersion × PageState :=
  match repoGetById st targetVersionId with
  | none => (Except.error "Version not found.", st)
  | some target =>
      if target.pageKey ≠ pageKey then
        (Except.error "Version does not belong to this page.", st)
      else if ¬ (target.status = VersionStatus.archived ∨
          target.status = VersionStatus.published) then
        (Except.error "Can only rollback to archived or published versions.", st)
      else
        let st1 :=
          match repoGetPublished st pageKey sc tid with
          | some currentPub =>
              if currentPub.id ≠ target.id then
                repoUpdateRow st { currentPub with status := VersionStatus.archived } now
              else st
          | none => st
        let target2 :=
          if target.status = VersionStatus.archived then
            { target with status := VersionStatus.published }
          else target
        (Except.ok { target2 with updatedAt := now }, repoUpdateRow st1 target2 now)

/-- The dict returned by `GetPageUseCase.execute`. -/
structure ResolvedPage where
  id : String
  pageKey : String
  scope : Scope
  tenantId : Option String
  versionNumber : Nat
  schemaJson : List (String × JValue)
  status : VersionStatus
deriving DecidableEq

/-- `GetPageUseCase.execute`: tenant-scoped published version first, then
the global one (whose dict hardcodes `tenant_id = None`), else absent. -/
def getPage (st : PageState) (pageKey : String) (tid : Option String) : Option ResolvedPage :=
  match (if tidTruthy tid then repoGetPublished st pageKey Scope.tenant tid else none) with
  | some tv =>
      some { id := tv.id, pageKey := tv.pageKey, scope := tv.scope, tenantId := tv.tenantId,
             versionNumber := tv.versionNumber, schemaJson := tv.schemaJson,
             status := tv.status }
  | none =>
      match repoGetPublished st pageKey Scope.global none with
      | some gv =>
          some { id := gv.id, pageKey := gv.pageKey, scope := gv.scope, tenantId := none,
                 versionNumber := gv.versionNumber, schemaJson := gv.schemaJson,
                 status := gv.status }
      | none => none

/-- Number of PUBLISHED versions in one (pageKey, scope, tenantId) group
(tenant matched exactly). -/
def countPublished (st : PageState) (key : String) (sc : Scope) (tid : Option String) : Nat :=
  (st.filter (fun v => v.pageKey == key && v.scope == sc && v.tenantId == tid &&
    v.status == VersionStatus.published)).length

def exOk (e : Except String PageVersion) : Bool :=
  match e with
  | Except.ok _ => true
  | Except.error _ => false

/-- State after `createDraft("p", GLOBAL)` assigning id "A". -/
def c1s1 : PageState := (createDraft [] "p" Scope.global [] none "A" 0).2

/-- State after `publish("A")`. -/
def c1s2 : PageState := (publish c1s1 "A" 1).2

/-- State after a second `createDraft("p", GLOBAL)` assigning id "B". -/
def c1s3 : PageState := (createDraft c1s2 "p" Scope.global [] none "B" 2).2

/-- State after `publish("B")` (archives "A"). -/
def c1s4 : PageState := (publish c1s3 "B" 3).2

/-- State after `rollback("p", "A", scope=TENANT, tenant_id="t1")` — the
call a tenant-authenticated user triggers through
`POST /pages/p/rollback/A` (the router passes `auth.tenant_id`). -/
def c1s5 : PageState := (rollback c1s4 "p" "A" Scope.tenant (some "t1") 4).2

/-! ## Claims C1, C7, C9 — the versioning lifecycle -/

theorem pubGroupPred_status (key : String) (sc : Scope) (tid : Option String)
    (w : PageVersion) (h : pubGroupPred key sc tid w = true) :
    w.status = VersionStatus.published := by
  simp only [pubGroupPred, Bool.and_eq_true, beq_iff_eq] at h
  exact h.1.2

/-- C1 (code bug): the five-call sequence — publish GLOBAL "A", publish
GLOBAL "B" (archiving "A"), then roll back to "A" passing scope=TENANT —
ends with TWO published versions in the ("p", GLOBAL, no-tenant) group,
because `rollback` archives the currently-published version of the
CALLER-SUPPLIED group instead of the target's own group.  Every step
returns successfully.  This contradicts the invariant the service's own
docstring promises ("Only one published version per (page_key, scope,
tenant_id)"). -/
theorem claim1_rollback_breaks_single_published :
    exOk (createDraft [] "p" Scope.global [] none "A" 0).1 = true ∧
    exOk (publish c1s1 "A" 1).1 = true ∧
    exOk (createDraft c1s2 "p" Scope.global [] none "B" 2).1 = true ∧
    exOk (publish c1s3 "B" 3).1 = true ∧
    exOk (rollback c1s4 "p" "A" Scope.tenant (some "t1") 4).1 = true ∧
    countPublished c1s5 "p" Scope.global none = 2 := by
  decide

/-- C7: `GetPageUseCase.execute` resolves the TENANT-scope published
version first, falls back to the GLOBAL-scope one on a miss, and returns
absent when neither exists, for every state, entity key and (non-empty)
tenant id. -/
theorem claim7_resolve_published_fallback (st : PageState) (key : String) (t : String)
    (ht : t ≠ "") :
    (∀ tv, repoGetPublished st key Scope.tenant (some t) = some tv →
      getPage st key (some t) =
        some { id := tv.id, pageKey := tv.pageKey, scope := tv.scope,
               tenantId := tv.tenantId, versionNumber := tv.versionNumber,
               schemaJson := tv.schemaJson, status := tv.status }) ∧
    (repoGetPublished st key Scope.tenant (some t) = none →
      ∀ gv, repoGetPublished st key Scope.global none = some gv →
        getPage st key (some t) =
          some { id := gv.id, pageKey := gv.pageKey, scope := gv.scope,
                 tenantId := none, versionNumber := gv.versionNumber,
                 schemaJson := gv.schemaJson, status := gv.status }) ∧
    (repoGetPublished st key Scope.tenant (some t) = none →
      repoGetPublished st key Scope.global none = none →
      getPage st key (some t) = none) := by
  have htt : tidTruthy (some t) = true := by simp [tidTruthy, ht]
  refine ⟨?_, ?_, ?_⟩
  · intro tv htv
    simp only [getPage, htt, if_true, htv]
  · intro hmiss gv hgv
    simp only [getPage, htt, if_true, hmiss, hgv]
  · intro hmiss hgmiss
    simp only [getPage, htt, if_true, hmiss, hgmiss]

/-- Witness for C7: a state holding a GLOBAL published version and a TENANT
published version for tenant "t1"; resolution returns the tenant one. -/
theorem claim7_witness :
    getPage
      [{ id := "G", pageKey := "p", scope := Scope.global, tenantId := none,
         baseVersionId := none, versionNumber := 1, schemaJson := [],
         status := VersionStatus.published, createdAt := 0, updatedAt := 0 },
       { id := "T", pageKey := "p", scope := Scope.tenant, tenantId := some "t1",
         baseVersionId := some "G", versionNumber := 1, schemaJson := [],
         status := VersionStatus.published, createdAt := 0, updatedAt := 0 }]
      "p" (some "t1") =
      some { id := "T", pageKey := "p", scope := Scope.tenant, tenantId := some "t1",
             versionNumber := 1, schemaJson := [], status := VersionStatus.published } := by
  have h := (claim7_resolve_published_fallback
    [{ id := "G", pageKey := "p", scope := Scope.global, tenantId := none,
       baseVersionId := none, versionNumber := 1, schemaJson := [],
       status := VersionStatus.published, createdAt := 0, updatedAt := 0 },
     { id := "T", pageKey := "p", scope := Scope.tenant, tenantId := some "t1",
       baseVersionId := some "G", versionNumber := 1, schemaJson := [],
       status := VersionStatus.published, createdAt := 0, updatedAt := 0 }]
    "p" "t1" (by decide)).1
    { id := "T", pageKey := "p", scope := Scope.tenant, tenantId := some "t1",
      baseVersionId := some "G", versionNumber := 1, schemaJson := [],
      status := VersionStatus.published, createdAt := 0, updatedAt := 0 }
    (by decide)
  exact h

/-- C9: calling `publish` on an existing version that is not a DRAFT while
its (entityKey, scope, tenantId) group has a (unique) currently PUBLISHED
version raises — but only after the previously published version has
already been archived, so the failed publish leaves the group with no
PUBLISHED version (at domain-service/session level; the surrounding HTTP
handler may still roll the transaction back). -/
theorem claim9_failed_publish_archives (st : PageState) (vid : String) (now : Nat)
    (v p : PageVersion)
    (hv : repoGetById st vid = some v)
    (hnd : v.status ≠ VersionStatus.draft)
    (hp : repoGetPublished st v.pageKey v.scope v.tenantId = some p)
    (huniq : ∀ w ∈ st, pubGroupPred v.pageKey v.scope v.tenantId w = true → w.id = p.id) :
    (publish st vid now).1 = Except.error publishNonDraftMsg ∧
    repoGetPublished (publish st vid now).2 v.pageKey v.scope v.tenantId = none := by
  have hpub : publish st vid now =
      (Except.error publishNonDraftMsg,
        repoUpdateRow st { p with status := VersionStatus.archived } now) := by
    simp only [publish, hv, hp]
    rw [if_pos hnd]
  rw [hpub]
  refine ⟨rfl, ?_⟩
  rw [repoGetPublished, List.find?_eq_none]
  intro w2 hw2
  rw [repoUpdateRow] at hw2
  obtain ⟨w, hw, hfw⟩ := List.mem_map.mp hw2
  by_cases hid : w.id = ({ p with status := VersionStatus.archived } : PageVersion).id
  · rw [if_pos hid] at hfw
    intro hcontra
    have hst := pubGroupPred_status _ _ _ _ hcontra
    rw [← hfw] at hst
    exact absurd (show VersionStatus.archived = VersionStatus.published from hst) (by decide)
  · rw [if_neg hid] at hfw
    subst hfw
    intro hcontra
    exact hid (huniq w hw hcontra)

/-- Witness for C9: state `[P published, Q archived]` in the GLOBAL group
of "p"; `publish("Q")` raises and leaves the group with no published
version. -/
theorem claim9_witness :
    (publish
      [{ id := "P", pageKey := "p", scope := Scope.global, tenantId := none,
         baseVersionId := none, versionNumber := 1, schemaJson := [],
         status := VersionStatus.published, createdAt := 0, updatedAt := 0 },
       { id := "Q", pageKey := "p", scope := Scope.global, tenantId := none,
         baseVersionId := none, versionNumber := 2, schemaJson := [],
         status := VersionStatus.archived, createdAt := 0, updatedAt := 0 }] "Q" 5).1 =
      Except.error publishNonDraftMsg ∧
    repoGetPublished
      (publish
        [{ id := "P", pageKey := "p", scope := Scope.global, tenantId := none,
           baseVersionId := none, versionNumber := 1, schemaJson := [],
           status := VersionStatus.published, createdAt := 0, updatedAt := 0 },
         { id := "Q", pageKey := "p", scope := Scope.global, tenantId := none,
           baseVersionId := none, versionNumber := 2, schemaJson := [],
           status := VersionStatus.archived, createdAt := 0, updatedAt := 0 }] "Q" 5).2
      "p" Scope.global none = none := by
  have h := claim9_failed_publish_archives
    [{ id := "P", pageKey := "p", scope := Scope.global, tenantId := none,
       baseVersionId := none, versionNumber := 1, schemaJson := [],
       status := VersionStatus.published, createdAt := 0, updatedAt := 0 },
     { id := "Q", pageKey := "p", scope := Scope.global, tenantId := none,
       baseVersionId := none, versionNumber := 2, schemaJson := [],
       status := VersionStatus.archived, createdAt := 0, updatedAt := 0 }] "Q" 5
    { id := "Q", pageKey := "p", scope := Scope.global, tenantId := none,
      baseVersionId := none, versionNumber := 2, schemaJson := [],
      status := VersionStatus.archived, createdAt := 0, updatedAt := 0 }
    { id := "P", pageKey := "p", scope := Scope.global, tenantId := none,
      baseVersionId := none, versionNumber := 1, schemaJson := [],
      status := VersionStatus.published, createdAt := 0, updatedAt := 0 }
    (by decide) (by decide) (by decide) (by decide)
  exact h

/-! ## Generic CRUD repository

Mirrors `GenericCrudRepository` over one dynamically-resolved table: the
table's row store is a list of rows in insertion order, its metadata is the
column-name list `cols` plus the `hasVer` flag (`"version" in table.c`).
Timestamps (`datetime.now`) and the generated UUID are the explicit `now`
and `freshId` parameters.  A SQL statement's effect is the corresponding
pure list transformation executed in one step (matching the single-round-
trip statements the repository issues). -/

inductive CVal where
  | vnull : CVal
  | vbool : Bool → CVal
  | vint : Int → CVal
  | vstr : String → CVal
  | vtime : Nat → CVal
deriving DecidableEq, Repr

abbrev Record := List (String × CVal)
abbrev Tbl := List Record

structure Filt where
  field : String
  op : String
  value : CVal
deriving DecidableEq, Repr

/-- SQL `<` on the comparable column values of the model (heterogeneous or
NULL comparisons yield no match). -/
def cvLt : CVal → CVal → Bool
  | CVal.vint a, CVal.vint b => a < b
  | CVal.vstr a, CVal.vstr b => a < b
  | CVal.vtime a, CVal.vtime b => a < b
  | _, _ => false

def matchAt : List Char → List Char → Bool
  | _, [] => true
  | [], _ :: _ => false
  | h :: t, n :: m => h == n && matchAt t m

def hasSub : List Char → List Char → Bool
  | [], needle => needle.isEmpty
  | h :: t, needle => matchAt (h :: t) needle || hasSub t needle

/-- `col.ilike(f"%{val}%")`: case-insensitive substring on strings. -/
def ilike (colv : CVal) (v : CVal) : Bool :=
  match colv, v with
  | CVal.vstr a, CVal.vstr b => hasSub a.toLower.toList b.toLower.toList
  | _, _ => false

/-- `val.split(",") if isinstance(val, str) else val` — the `in` operator's
value list (a non-string value stands for itself; the model's scalar `CVal`
represents a one-element collection). -/
def inVals : CVal → List CVal
  | CVal.vstr z => (z.splitOn ",").map CVal.vstr
  | v => [v]

/-- `_OP_MAP`: the predicate of one (operator, value) pair applied to a
column value; `none` for an unknown operator (the filter is skipped). -/
def opApply (op : String) (colv : CVal) (v : CVal) : Option Bool :=
  if op = "eq" then some (colv == v)
  else if op = "neq" then some (colv != v)
  else if op = "gt" then some (cvLt v colv)
  else if op = "gte" then some (cvLt v colv || colv == v)
  else if op = "lt" then some (cvLt colv v)
  else if op = "lte" then some (cvLt colv v || colv == v)
  else if op = "like" then some (ilike colv v)
  else if op = "in" then some ((inVals v).contains colv)
  else none

/-- `_apply_filters`: conjunction of the parsed filters; a filter whose
field is not a column of the table, or whose operator is unknown, is
silently skipped. -/
def filtPred (cols : List String) (filters : List Filt) (r : Record) : Bool :=
  filters.all (fun f =>
    if cols.contains f.field then
      match opApply f.op ((lookupKey r f.field).getD CVal.vnull) f.value with
      | some b => b
      | none => true
    else true)

def cvLe (a b : CVal) : Bool := cvLt a b || a == b

/-- `ORDER BY` on one column, ascending or descending. -/
def sortRows (rows : List Record) (key : String) (desc : Bool) : List Record :=
  rows.mergeSort (fun r1 r2 =>
    let a := (lookupKey r1 key).getD CVal.vnull
    let b := (lookupKey r2 key).getD CVal.vnull
    if desc then cvLe b a else cvLe a b)

/-- The sort choice of `GenericCrudRepository.list`: the requested field
when truthy and present on the table, else `created_at` descending. -/
def chooseSort (cols : List String) (rows : List Record) (sortField : Option String)
    (sortDesc : Bool) : List Record :=
  match sortField with
  | some f =>
      if f ≠ "" && cols.contains f then sortRows rows f sortDesc
      else sortRows rows "created_at" true
  | none => sortRows rows "created_at" true

structure ListResult where
  items : List Record
  total : Nat
  offset : Nat
  limit : Nat
deriving DecidableEq, Repr

/-- `GenericCrudRepository.list`: tenant filter plus parsed filters for the
count and the page, then sort, offset, limit. -/
def listRows (cols : List String) (tbl : Tbl) (tenantId : String) (offset limit : Nat)
    (filters : List Filt) (sortField : Option String) (sortDesc : Bool) : ListResult :=
  let filtered := (tbl.filter (fun r =>
    lookupKey r "tenant_id" == some (CVal.vstr tenantId))).filter (filtPred cols filters)
  { items := ((chooseSort cols filtered sortField sortDesc).drop offset).take limit,
    total := filtered.length, offset := offset, limit := limit }

/-- `GenericCrudRepository.get_by_id`. -/
def getById (tbl : Tbl) (tenantId : String) (entityId : String) : Option Record :=
  tbl.find? (fun r => lookupKey r "id" == some (CVal.vstr entityId) &&
    lookupKey r "tenant_id" == some (CVal.vstr tenantId))

/-- Python dict-update semantics: apply the assignments `cs` in order onto
`r` (used for `{**base, **data}` in `create` and for the SET clause of the
UPDATE statement, whose right-hand sides all read the OLD row). -/
def applyAssigns (r : Record) (cs : Record) : Record :=
  cs.foldl (fun acc kv => setKey acc kv.1 kv.2) r

/-- `GenericCrudRepository.create`: the generated id / tenant / timestamps
are spread FIRST and `**data` afterwards, so caller-supplied keys override
the generated ones; `version = 1` is added only when the table has a
version column and `data` did not supply one. -/
def create (hasVer : Bool) (tenantId : String) (data : Record) (freshId : String)
    (now : Nat) (tbl : Tbl) : Record × Tbl :=
  let base : Record := [("id", CVal.vstr freshId), ("tenant_id", CVal.vstr tenantId),
    ("created_at", CVal.vtime now), ("updated_at", CVal.vtime now)]
  let rowData := applyAssigns base data
  let rowData2 :=
    if hasVer && (lookupKey rowData "version").isNone then
      rowData ++ [("version", CVal.vint 1)]
    else rowData
  (rowData2, tbl ++ [rowData2])

structure Conflict where
  entityId : String
  expectedVersion : Int
deriving DecidableEq, Repr

/-- The SET value of `version = version + 1` (the no-expected-version
branch): computed from the row's stored value, with SQL NULL propagating. -/
def incVal : Option CVal → CVal
  | some (CVal.vint n) => CVal.vint (n + 1)
  | _ => CVal.vnull

/-- The updates dict of `GenericCrudRepository.update`: drop `None`-valued
entries, drop the `_version` client hint, stamp `updated_at = now`. -/
def buildUpdates (data : Record) (now : Nat) : Record :=
  setKey (removeKey (data.filter (fun kv => kv.2 ≠ CVal.vnull)) "_version")
    "updated_at" (CVal.vtime now)

/-- The full SET dict for one matched row: on the optimistic branch
`version = expected + 1` (a constant, same statement as the data), else
`version = version + 1` from the stored row, else no version column. -/
def updConsts (hasVer : Bool) (expVer : Option Int) (data : Record) (now : Nat)
    (r : Record) : Record :=
  let u := buildUpdates data now
  match hasVer, expVer with
  | true, some e => setKey u "version" (CVal.vint (e + 1))
  | true, none => setKey u "version" (incVal (lookupKey r "version"))
  | false, _ => u

/-- The WHERE clause of the UPDATE statement: id, tenant id, and — when the
table has a version column and an expected version was supplied — the
version equality check. -/
def updWhere (hasVer : Bool) (expVer : Option Int) (tenantId entityId : String)
    (r : Record) : Bool :=
  lookupKey r "id" == some (CVal.vstr entityId) &&
  lookupKey r "tenant_id" == some (CVal.vstr tenantId) &&
  (match hasVer, expVer with
   | true, some e => lookupKey r "version" == some (CVal.vint e)
   | _, _ => true)

/-- `GenericCrudRepository.update`: one UPDATE statement; on zero rows
affected, a follow-up existence check distinguishes Conflict
(`StaleDataError`, carrying the entity id and the rejected expected
version) from not-found; on success the updated row is re-selected. -/
def update (hasVer : Bool) (tbl : Tbl) (tenantId entityId : String) (data : Record)
    (expVer : Option Int) (now : Nat) : Except Conflict (Option Record) × Tbl :=
  let tbl2 := tbl.map (fun r =>
    if updWhere hasVer expVer tenantId entityId r then
      applyAssigns r (updConsts hasVer expVer data now r)
    else r)
  if (tbl.filter (updWhere hasVer expVer tenantId entityId)).length = 0 then
    match hasVer, expVer with
    | true, some e =>
        if ((tbl.filter (fun r => lookupKey r "id" == some (CVal.vstr entityId) &&
            lookupKey r "tenant_id" == some (CVal.vstr tenantId))).length) > 0 then
          (Except.error { entityId := entityId, expectedVersion := e }, tbl2)
        else (Except.ok none, tbl2)
    | _, _ => (Except.ok none, tbl2)
  else
    (Except.ok (tbl2.find? (fun r => lookupKey r "id" == some (CVal.vstr entityId) &&
      lookupKey r "tenant_id" == some (CVal.vstr tenantId))), tbl2)

/-- `GenericCrudRepository.delete`: one DELETE statement filtered by id and
tenant id; returns whether a row was deleted. -/
def deleteRow (tbl : Tbl) (tenantId entityId : String) : Bool × Tbl :=
  ((tbl.filter (fun r => lookupKey r "id" == some (CVal.vstr entityId) &&
      lookupKey r "tenant_id" == some (CVal.vstr tenantId))).length > 0,
   tbl.filter (fun r => !(lookupKey r "id" == some (CVal.vstr entityId) &&
      lookupKey r "tenant_id" == some (CVal.vstr tenantId))))

/-! ## CRUD lemmas -/

theorem forall2_map_self {α : Type} (R : α → α → Prop) (f : α → α) (l : List α)
    (h : ∀ a ∈ l, R a (f a)) : List.Forall₂ R l (l.map f) := by
  induction l with
  | nil => simp
  | cons x xs ih =>
      simp only [List.map_cons]
      exact List.Forall₂.cons (h x (by simp)) (ih (fun a ha => h a (by simp [ha])))

theorem lookupKey_eq_none_iff {α : Type} (m : List (String × α)) (k : String) :
    lookupKey m k = none ↔ k ∉ m.map Prod.fst := by
  induction m with
  | nil => simp [lookupKey]
  | cons kv rest ih =>
      obtain ⟨k2, v⟩ := kv
      by_cases h : k2 = k
      · subst h
        simp [lookupKey]
      · simp only [lookupKey, if_neg h, List.map_cons, List.mem_cons, ih]
        constructor
        · intro h2
          rintro (h3 | h3)
          · exact h h3.symm
          · exact h2 h3
        · intro h2 h3
          exact h2 (Or.inr h3)

theorem lookupKey_mem {α : Type} (m : List (String × α)) (k : String) (v : α)
    (h : lookupKey m k = some v) : (k, v) ∈ m := by
  induction m with
  | nil => simp [lookupKey] at h
  | cons kv rest ih =>
      obtain ⟨k2, w⟩ := kv
      by_cases h2 : k2 = k
      · subst h2
        simp [lookupKey] at h
        simp [h]
      · simp [lookupKey, h2] at h
        simp [ih h]

theorem lookupKey_applyAssigns (r cs : Record) (k : String) :
    lookupKey (applyAssigns r cs) k =
      match lookupKey cs.reverse k with
      | some v => some v
      | none => lookupKey r k := by
  induction cs generalizing r with
  | nil => simp [applyAssigns, lookupKey]
  | cons c rest ih =>
      obtain ⟨k2, v⟩ := c
      have hstep : applyAssigns r ((k2, v) :: rest) = applyAssigns (setKey r k2 v) rest := by
        simp [applyAssigns]
      rw [hstep, ih, List.reverse_cons, lookupKey_append]
      cases hf : lookupKey rest.reverse k
      · rw [lookupKey_setKey]
        by_cases h2 : k2 = k <;> simp [lookupKey, h2]
      · simp

theorem mem_setKey {α : Type} (m : List (String × α)) (k : String) (v : α)
    (k2 : String) (v2 : α) (h : (k2, v2) ∈ setKey m k v) :
    (k2, v2) ∈ m ∨ (k2 = k ∧ v2 = v) := by
  induction m with
  | nil =>
      simp [setKey] at h
      exact Or.inr ⟨h.1, h.2⟩
  | cons kv rest ih =>
      obtain ⟨k3, w⟩ := kv
      by_cases h3 : k3 = k
      · subst h3
        simp only [setKey, if_pos rfl] at h
        rcases List.mem_cons.mp h with h4 | h4
        · rw [Prod.mk.injEq] at h4
          exact Or.inr ⟨h4.1.trans rfl, h4.2⟩
        · exact Or.inl (List.mem_cons.mpr (Or.inr h4))
      · simp only [setKey, if_neg h3] at h
        rcases List.mem_cons.mp h with h4 | h4
        · exact Or.inl (List.mem_cons.mpr (Or.inl h4))
        · rcases ih h4 with h5 | h5
          · exact Or.inl (List.mem_cons.mpr (Or.inr h5))
          · exact Or.inr h5

theorem keys_setKey_mem {α : Type} (m : List (String × α)) (k : String) (v : α)
    (x : String) (h : x ∈ (setKey m k v).map Prod.fst) :
    x ∈ m.map Prod.fst ∨ x = k := by
  rw [List.mem_map] at h
  obtain ⟨⟨k2, v2⟩, hmem, hx⟩ := h
  rcases mem_setKey m k v k2 v2 hmem with h2 | h2
  · exact Or.inl (hx ▸ List.mem_map_of_mem Prod.fst h2)
  · exact Or.inr (hx ▸ h2.1 ▸ rfl)

theorem removeKey_eq_filter {α : Type} (m : List (String × α)) (key : String) :
    removeKey m key = m.filter (fun kv => kv.1 ≠ key) := by
  induction m with
  | nil => simp [removeKey]
  | cons kv rest ih =>
      obtain ⟨k2, v⟩ := kv
      by_cases h : k2 = key
      · subst h
        simp [removeKey, ih]
      · simp [removeKey, h, ih]

theorem mem_removeKey {α : Type} (m : List (String × α)) (key : String)
    (k2 : String) (v2 : α) (h : (k2, v2) ∈ removeKey m key) :
    (k2, v2) ∈ m ∧ k2 ≠ key := by
  rw [removeKey_eq_filter] at h
  have h2 := List.mem_filter.mp h
  exact ⟨h2.1, by simpa using h2.2⟩

theorem keys_setKey_nodup {α : Type} (m : List (String × α)) (k : String) (v : α)
    (hn : (m.map Prod.fst).Nodup) : ((setKey m k v).map Prod.fst).Nodup := by
  induction m with
  | nil => simp [setKey]
  | cons kv rest ih =>
      obtain ⟨k2, w⟩ := kv
      simp only [List.map_cons, List.nodup_cons] at hn
      by_cases h : k2 = k
      · subst h
        have hset : setKey ((k2, w) :: rest) k2 v = (k2, v) :: rest := by
          simp [setKey]
        rw [hset]
        simp only [List.map_cons, List.nodup_cons]
        exact ⟨hn.1, hn.2⟩
      · simp only [setKey, if_neg h, List.map_cons, List.nodup_cons]
        refine ⟨?_, ih hn.2⟩
        intro hmem
        rcases keys_setKey_mem rest k v k2 hmem with h2 | h2
        · exact hn.1 h2
        · exact h h2

theorem lookupKey_reverse_none {α : Type} (m : List (String × α)) (k : String)
    (h : k ∉ m.map Prod.fst) : lookupKey m.reverse k = none := by
  rw [lookupKey_eq_none_iff, List.map_reverse]
  simpa using h

theorem lookupKey_reverse_setKey {α : Type} (m : List (String × α)) (k : String) (v : α)
    (hn : (m.map Prod.fst).Nodup) : lookupKey (setKey m k v).reverse k = some v := by
  induction m with
  | nil => simp [setKey, lookupKey]
  | cons kv rest ih =>
      obtain ⟨k2, w⟩ := kv
      simp only [List.map_cons, List.nodup_cons] at hn
      by_cases h : k2 = k
      · subst h
        have hset : setKey ((k2, w) :: rest) k2 v = (k2, v) :: rest := by
          simp [setKey]
        rw [hset, List.reverse_cons, lookupKey_append, lookupKey_reverse_none rest k2 hn.1]
        simp [lookupKey]
      · simp only [setKey, if_neg h, List.reverse_cons]
        rw [lookupKey_append, ih hn.2]

theorem buildUpdates_keys_nodup (data : Record) (now : Nat)
    (hnd : (data.map Prod.fst).Nodup) :
    ((buildUpdates data now).map Prod.fst).Nodup := by
  apply keys_setKey_nodup
  rw [removeKey_eq_filter]
  exact hnd.sublist (List.Sublist.map Prod.fst (List.filter_sublist _)) |>.sublist
    (List.Sublist.map Prod.fst (List.filter_sublist _))

theorem keys_buildUpdates_mem (data : Record) (now : Nat) (x : String)
    (h : x ∈ (buildUpdates data now).map Prod.fst) :
    (x ∈ (data.filter (fun kv => kv.2 ≠ CVal.vnull)).map Prod.fst ∧ x ≠ "_version") ∨
      x = "updated_at" := by
  rcases keys_setKey_mem _ _ _ _ h with h2 | h2
  · rw [List.mem_map] at h2
    obtain ⟨⟨k2, v2⟩, hmem, hx⟩ := h2
    have h3 := mem_removeKey _ _ _ _ hmem
    exact Or.inl ⟨hx ▸ List.mem_map_of_mem Prod.fst h3.1, hx ▸ h3.2⟩
  · exact Or.inr h2

theorem keys_updConsts_mem (hasVer : Bool) (expVer : Option Int) (data : Record)
    (now : Nat) (r : Record) (x : String)
    (h : x ∈ (updConsts hasVer expVer data now r).map Prod.fst) :
    (x ∈ (data.filter (fun kv => kv.2 ≠ CVal.vnull)).map Prod.fst ∧ x ≠ "_version") ∨
      x = "updated_at" ∨ (hasVer = true ∧ x = "version") := by
  match hasVer, expVer with
  | true, some e =>
      simp only [updConsts] at h
      rcases keys_setKey_mem _ _ _ _ h with h2 | h2
      · rcases keys_buildUpdates_mem data now x h2 with h3 | h3
        · exact Or.inl h3
        · exact Or.inr (Or.inl h3)
      · exact Or.inr (Or.inr ⟨rfl, h2⟩)
  | true, none =>
      simp only [updConsts] at h
      rcases keys_setKey_mem _ _ _ _ h with h2 | h2
      · rcases keys_buildUpdates_mem data now x h2 with h3 | h3
        · exact Or.inl h3
        · exact Or.inr (Or.inl h3)
      · exact Or.inr (Or.inr ⟨rfl, h2⟩)
  | false, _ =>
      simp only [updConsts] at h
      rcases keys_buildUpdates_mem data now x h with h3 | h3
      · exact Or.inl h3
      · exact Or.inr (Or.inl h3)

theorem mem_buildUpdates_val (data : Record) (now : Nat) (k : String) (v : CVal)
    (h : (k, v) ∈ buildUpdates data now) : v ≠ CVal.vnull := by
  rcases mem_setKey _ _ _ _ _ h with h2 | h2
  · have h3 := (mem_removeKey _ _ _ _ h2).1
    have h4 := List.mem_filter.mp h3
    simpa using h4.2
  · rw [h2.2]
    intro hc
    cases hc

theorem mem_updConsts_val (hasVer : Bool) (expVer : Option Int) (data : Record)
    (now : Nat) (r : Record) (k : String) (v : CVal)
    (h : (k, v) ∈ updConsts hasVer expVer data now r) :
    v ≠ CVal.vnull ∨
      (hasVer = true ∧ k = "version" ∧ v = incVal (lookupKey r "version")) := by
  match hasVer, expVer with
  | true, some e =>
      simp only [updConsts] at h
      rcases mem_setKey _ _ _ _ _ h with h2 | h2
      · exact Or.inl (mem_buildUpdates_val data now k v h2)
      · rw [h2.2]
        exact Or.inl (by intro hc; cases hc)
  | true, none =>
      simp only [updConsts] at h
      rcases mem_setKey _ _ _ _ _ h with h2 | h2
      · exact Or.inl (mem_buildUpdates_val data now k v h2)
      · exact Or.inr ⟨rfl, h2⟩
  | false, _ =>
      simp only [updConsts] at h
      exact Or.inl (mem_buildUpdates_val data now k v h)

theorem filter_sub_nil {α : Type} (l : List α) (p q : α → Bool)
    (hq : l.filter q = []) (himp : ∀ x ∈ l, p x = true → q x = true) :
    l.filter p = [] := by
  rw [List.filter_eq_nil_iff] at hq ⊢
  intro a ha hpa
  exact hq a ha (himp a ha hpa)

theorem filter_sub_single {α : Type} (l : List α) (p q : α → Bool) (a : α)
    (hq : l.filter q = [a]) (himp : ∀ x ∈ l, p x = true → q x = true)
    (hpa : p a = true) : l.filter p = [a] := by
  induction l with
  | nil => simp at hq
  | cons x xs ih =>
      by_cases hqx : q x = true
      · rw [List.filter_cons_of_pos hqx] at hq
        have hx : x = a := (List.cons.injEq .. ▸ hq).1
        have hxs : xs.filter q = [] := (List.cons.injEq .. ▸ hq).2
        subst hx
        rw [List.filter_cons_of_pos hpa]
        have : xs.filter p = [] :=
          filter_sub_nil xs p q hxs (fun y hy => himp y (by simp [hy]))
        rw [this]
      · rw [List.filter_cons_of_neg (by simpa using hqx)] at hq
        have hpx : ¬ p x = true := fun hc => hqx (himp x (by simp) hc)
        rw [List.filter_cons_of_neg (by simpa using hpx)]
        exact ih hq (fun y hy => himp y (by simp [hy]))

theorem filter_sub_none {α : Type} (l : List α) (p q : α → Bool) (a : α)
    (hq : l.filter q = [a]) (himp : ∀ x ∈ l, p x = true → q x = true)
    (hpa : p a = false) : l.filter p = [] := by
  induction l with
  | nil => simp at hq
  | cons x xs ih =>
      by_cases hqx : q x = true
      · rw [List.filter_cons_of_pos hqx] at hq
        have hx : x = a := (List.cons.injEq .. ▸ hq).1
        have hxs : xs.filter q = [] := (List.cons.injEq .. ▸ hq).2
        subst hx
        rw [List.filter_cons_of_neg (by simp [hpa])]
        exact filter_sub_nil xs p q hxs (fun y hy => himp y (by simp [hy]))
      · rw [List.filter_cons_of_neg (by simpa using hqx)] at hq
        have hpx : ¬ p x = true := fun hc => hqx (himp x (by simp) hc)
        rw [List.filter_cons_of_neg (by simpa using hpx)]
        exact ih hq (fun y hy => himp y (by simp [hy]))

theorem find?_map_single {α : Type} (l : List α) (q : α → Bool) (f : α → α) (a : α)
    (hq : l.filter q = [a])
    (hpres : ∀ x ∈ l, q x = false → q (f x) = false)
    (hqa : q (f a) = true) :
    (l.map f).find? q = some (f a) := by
  induction l with
  | nil => simp at hq
  | cons x xs ih =>
      by_cases hqx : q x = true
      · rw [List.filter_cons_of_pos hqx] at hq
        have hx : x = a := (List.cons.injEq .. ▸ hq).1
        subst hx
        simp only [List.map_cons]
        rw [List.find?_cons_of_pos _ hqa]
      · rw [List.filter_cons_of_neg (by simpa using hqx)] at hq
        simp only [List.map_cons]
        rw [List.find?_cons_of_neg _ (by
          have := hpres x (by simp) (by simpa using hqx)
          simp [this])]
        exact ih hq (fun y hy hqy => hpres y (by simp [hy]) hqy)

theorem map_id_of_eq {α : Type} (l : List α) (f : α → α) (h : ∀ a ∈ l, f a = a) :
    l.map f = l := by
  induction l with
  | nil => rfl
  | cons x xs ih =>
      simp only [List.map_cons]
      rw [h x (by simp), ih (fun a ha => h a (by simp [ha]))]

theorem update_snd (hasVer : Bool) (tbl : Tbl) (tenantId entityId : String) (data : Record)
    (expVer : Option Int) (now : Nat) :
    (update hasVer tbl tenantId entityId data expVer now).2 =
      tbl.map (fun r => if updWhere hasVer expVer tenantId entityId r then
        applyAssigns r (updConsts hasVer expVer data now r) else r) := by
  simp only [update]
  by_cases h : (tbl.filter (updWhere hasVer expVer tenantId entityId)).length = 0
  · rw [if_pos h]
    cases hasVer with
    | false => rfl
    | true =>
        cases expVer with
        | none => rfl
        | some e => split <;> (try split) <;> rfl
  · rw [if_neg h]

theorem sortRows_mem (rows : List Record) (key : String) (desc : Bool) (r : Record)
    (h : r ∈ sortRows rows key desc) : r ∈ rows := by
  rw [sortRows] at h
  exact List.mem_mergeSort.mp h

theorem chooseSort_mem (cols : List String) (rows : List Record)
    (sortField : Option String) (sortDesc : Bool) (r : Record)
    (h : r ∈ chooseSort cols rows sortField sortDesc) : r ∈ rows := by
  match sortField with
  | none => exact sortRows_mem _ _ _ _ h
  | some f =>
      simp only [chooseSort] at h
      by_cases h2 : (f ≠ "" && cols.contains f) = true
      · rw [if_pos h2] at h
        exact sortRows_mem _ _ _ _ h
      · rw [if_neg h2] at h
        exact sortRows_mem _ _ _ _ h

/-! ## Claims C2, C3, C8, C10 — the generic CRUD repository -/

/-- C2: every `list` item carries the requesting tenant's id; `getById`
only ever returns a row of the requesting tenant; `update` leaves every
row of any other tenant unchanged; `delete` keeps every row of any other
tenant.  (The repository itself puts `tenant_id = :tenant` into every
statement — this holds even before the tenant-context interceptor adds its
own, redundant filter.) -/
theorem claim2_tenant_isolation (cols : List String) (tbl : Tbl) (tenantA : String)
    (offset limit : Nat) (filters : List Filt) (sortField : Option String) (sortDesc : Bool)
    (entityId : String) (hasVer : Bool) (data : Record) (expVer : Option Int) (now : Nat) :
    (∀ r ∈ (listRows cols tbl tenantA offset limit filters sortField sortDesc).items,
      lookupKey r "tenant_id" = some (CVal.vstr tenantA)) ∧
    (∀ r, getById tbl tenantA entityId = some r →
      lookupKey r "tenant_id" = some (CVal.vstr tenantA)) ∧
    List.Forall₂ (fun r r2 => lookupKey r "tenant_id" ≠ some (CVal.vstr tenantA) → r2 = r)
      tbl (update hasVer tbl tenantA entityId data expVer now).2 ∧
    (∀ r ∈ tbl, lookupKey r "tenant_id" ≠ some (CVal.vstr tenantA) →
      r ∈ (deleteRow tbl tenantA entityId).2) := by
  refine ⟨?_, ?_, ?_, ?_⟩
  · intro r hr
    simp only [listRows] at hr
    have h1 := List.mem_of_mem_drop (List.mem_of_mem_take hr)
    have h2 := chooseSort_mem _ _ _ _ _ h1
    have h3 := (List.mem_filter.mp h2).1
    have h4 := (List.mem_filter.mp h3).2
    simpa using h4
  · intro r hr
    have h1 := List.find?_some hr
    simp only [Bool.and_eq_true, beq_iff_eq] at h1
    exact h1.2
  · rw [update_snd]
    apply forall2_map_self
    intro r hr hneq
    have hw : updWhere hasVer expVer tenantA entityId r = false := by
      cases hb : (lookupKey r "tenant_id" == some (CVal.vstr tenantA)) with
      | true => exact absurd (eq_of_beq hb) hneq
      | false => simp [updWhere, hb]
    rw [if_neg (by simp [hw])]
  · intro r hr hneq
    simp only [deleteRow]
    rw [List.mem_filter]
    refine ⟨hr, ?_⟩
    have hb : (lookupKey r "tenant_id" == some (CVal.vstr tenantA)) = false := by
      cases hb2 : (lookupKey r "tenant_id" == some (CVal.vstr tenantA)) with
      | true => exact absurd (eq_of_beq hb2) hneq
      | false => rfl
    simp [hb]

/-- Witness for C2: a table holding one row of tenant "A" and one of
tenant "B" with the same business key; tenant B's row survives tenant A's
delete, and tenant A's update leaves it untouched. -/
theorem claim2_witness :
    lookupKey [("id", CVal.vstr "k1"), ("tenant_id", CVal.vstr "B"), ("version", CVal.vint 1)]
      "tenant_id" ≠ some (CVal.vstr "A") ∧
    [("id", CVal.vstr "k1"), ("tenant_id", CVal.vstr "B"), ("version", CVal.vint 1)] ∈
      (deleteRow
        [[("id", CVal.vstr "k1"), ("tenant_id", CVal.vstr "A"), ("version", CVal.vint 1)],
         [("id", CVal.vstr "k1"), ("tenant_id", CVal.vstr "B"), ("version", CVal.vint 1)]]
        "A" "k1").2 := by
  refine ⟨by decide, ?_⟩
  exact (claim2_tenant_isolation [] 
    [[("id", CVal.vstr "k1"), ("tenant_id", CVal.vstr "A"), ("version", CVal.vint 1)],
     [("id", CVal.vstr "k1"), ("tenant_id", CVal.vstr "B"), ("version", CVal.vint 1)]]
    "A" 0 50 [] none false "k1" true [] none 0).2.2.2
    [("id", CVal.vstr "k1"), ("tenant_id", CVal.vstr "B"), ("version", CVal.vint 1)]
    (by decide) (by decide)

/-- C3: with a version column and a supplied `expectedVersion`, `update`
raises `StaleDataError` carrying the entity id and the rejected expected
version when the (unique) row matched by id and tenant stores a different
version; returns absent when no such row exists; and on success returns
the updated row whose stored version is the matched version + 1, applied
by the same single UPDATE statement as the data (one `applyAssigns` step
in the model). -/
theorem claim3_optimistic_update (tbl : Tbl) (tenantId entityId : String) (data : Record)
    (e : Int) (now : Nat) :
    ((tbl.filter (fun r => lookupKey r "id" == some (CVal.vstr entityId) &&
        lookupKey r "tenant_id" == some (CVal.vstr tenantId))) = [] →
      update true tbl tenantId entityId data (some e) now = (Except.ok none, tbl)) ∧
    (∀ r v, (tbl.filter (fun r => lookupKey r "id" == some (CVal.vstr entityId) &&
        lookupKey r "tenant_id" == some (CVal.vstr tenantId))) = [r] →
      lookupKey r "version" = some (CVal.vint v) → v ≠ e →
      update true tbl tenantId entityId data (some e) now =
        (Except.error { entityId := entityId, expectedVersion := e }, tbl)) ∧
    (∀ r, (tbl.filter (fun r => lookupKey r "id" == some (CVal.vstr entityId) &&
        lookupKey r "tenant_id" == some (CVal.vstr tenantId))) = [r] →
      lookupKey r "version" = some (CVal.vint e) →
      lookupKey data "id" = none → lookupKey data "tenant_id" = none →
      (data.map Prod.fst).Nodup →
      (update true tbl tenantId entityId data (some e) now).1 =
        Except.ok (some (applyAssigns r (updConsts true (some e) data now r))) ∧
      lookupKey (applyAssigns r (updConsts true (some e) data now r)) "version" =
        some (CVal.vint (e + 1))) := by
  have himp : ∀ x ∈ tbl, updWhere true (some e) tenantId entityId x = true →
      (fun r => lookupKey r "id" == some (CVal.vstr entityId) &&
        lookupKey r "tenant_id" == some (CVal.vstr tenantId)) x = true := by
    intro x hx hw
    simp only [updWhere, Bool.and_eq_true] at hw
    simp [hw.1.1, hw.1.2]
  refine ⟨?_, ?_, ?_⟩
  · intro h
    have hfP : tbl.filter (updWhere true (some e) tenantId entityId) = [] :=
      filter_sub_nil tbl _ _ h himp
    have hall : ∀ r ∈ tbl, updWhere true (some e) tenantId entityId r = false := by
      intro r hr
      have h2 := List.filter_eq_nil_iff.mp hfP r hr
      simpa using h2
    have hmap : tbl.map (fun r => if updWhere true (some e) tenantId entityId r then
        applyAssigns r (updConsts true (some e) data now r) else r) = tbl :=
      map_id_of_eq _ _ (fun r hr => by rw [if_neg (by simp [hall r hr])])
    simp only [update]
    rw [hfP, if_pos (by simp), h, hmap]
    rw [if_neg (by simp)]
  · intro r v hq hv hne
    have hrf : r ∈ tbl.filter (fun r => lookupKey r "id" == some (CVal.vstr entityId) &&
        lookupKey r "tenant_id" == some (CVal.vstr tenantId)) := by
      rw [hq]
      simp
    have hP_r : updWhere true (some e) tenantId entityId r = false := by
      simp only [updWhere]
      rw [hv]
      have hne2 : (some (CVal.vint v) == some (CVal.vint e)) = false := by
        rw [beq_eq_false_iff_ne]
        intro hc
        apply hne
        injection hc with hc2
        injection hc2
      rw [hne2]
      simp
    have hfP : tbl.filter (updWhere true (some e) tenantId entityId) = [] :=
      filter_sub_none tbl _ _ r hq himp hP_r
    have hall : ∀ w ∈ tbl, updWhere true (some e) tenantId entityId w = false := by
      intro w hw
      have h2 := List.filter_eq_nil_iff.mp hfP w hw
      simpa using h2
    have hmap : tbl.map (fun r => if updWhere true (some e) tenantId entityId r then
        applyAssigns r (updConsts true (some e) data now r) else r) = tbl :=
      map_id_of_eq _ _ (fun w hw => by rw [if_neg (by simp [hall w hw])])
    simp only [update]
    rw [hfP, if_pos (by simp), hq, hmap]
    rw [if_pos (by simp)]
  · intro r hq hv hdid hdten hnd
    have hrf : r ∈ tbl.filter (fun r => lookupKey r "id" == some (CVal.vstr entityId) &&
        lookupKey r "tenant_id" == some (CVal.vstr tenantId)) := by
      rw [hq]
      simp
    have hidT := (List.mem_filter.mp hrf).2
    have hidT2 := hidT
    simp only [Bool.and_eq_true] at hidT2
    have hP_r : updWhere true (some e) tenantId entityId r = true := by
      simp [updWhere, hv, hidT2.1, hidT2.2]
    have hfP : tbl.filter (updWhere true (some e) tenantId entityId) = [r] :=
      filter_sub_single tbl _ _ r hq himp hP_r
    have hnotid : "id" ∉ (updConsts true (some e) data now r).map Prod.fst := by
      intro hmem
      rcases keys_updConsts_mem _ _ _ _ _ _ hmem with h2 | h2 | h2
      · have hsub : ((data.filter (fun kv => kv.2 ≠ CVal.vnull)).map Prod.fst).Sublist
            (data.map Prod.fst) := List.Sublist.map Prod.fst (List.filter_sublist data)
        rw [lookupKey_eq_none_iff] at hdid
        exact hdid (hsub.subset h2.1)
      · exact absurd h2 (by decide)
      · exact absurd h2.2 (by decide)
    have hnotten : "tenant_id" ∉ (updConsts true (some e) data now r).map Prod.fst := by
      intro hmem
      rcases keys_updConsts_mem _ _ _ _ _ _ hmem with h2 | h2 | h2
      · have hsub : ((data.filter (fun kv => kv.2 ≠ CVal.vnull)).map Prod.fst).Sublist
            (data.map Prod.fst) := List.Sublist.map Prod.fst (List.filter_sublist data)
        rw [lookupKey_eq_none_iff] at hdten
        exact hdten (hsub.subset h2.1)
      · exact absurd h2 (by decide)
      · exact absurd h2.2 (by decide)
    have hfr_id : lookupKey (applyAssigns r (updConsts true (some e) data now r)) "id" =
        lookupKey r "id" := by
      rw [lookupKey_applyAssigns, lookupKey_reverse_none _ _ hnotid]
    have hfr_ten : lookupKey (applyAssigns r (updConsts true (some e) data now r))
        "tenant_id" = lookupKey r "tenant_id" := by
      rw [lookupKey_applyAssigns, lookupKey_reverse_none _ _ hnotten]
    have hqfa : (fun r2 => lookupKey r2 "id" == some (CVal.vstr entityId) &&
        lookupKey r2 "tenant_id" == some (CVal.vstr tenantId))
        ((fun r => if updWhere true (some e) tenantId entityId r then
          applyAssigns r (updConsts true (some e) data now r) else r) r) = true := by
      show (lookupKey (if updWhere true (some e) tenantId entityId r = true then
          applyAssigns r (updConsts true (some e) data now r) else r) "id" ==
        some (CVal.vstr entityId) &&
        (lookupKey (if updWhere true (some e) tenantId entityId r = true then
          applyAssigns r (updConsts true (some e) data now r) else r) "tenant_id" ==
        some (CVal.vstr tenantId))) = true
      rw [if_pos hP_r, hfr_id, hfr_ten]
      exact hidT
    have hpres : ∀ x ∈ tbl,
        (fun r => lookupKey r "id" == some (CVal.vstr entityId) &&
          lookupKey r "tenant_id" == some (CVal.vstr tenantId)) x = false →
        (fun r => lookupKey r "id" == some (CVal.vstr entityId) &&
          lookupKey r "tenant_id" == some (CVal.vstr tenantId))
        ((fun r => if updWhere true (some e) tenantId entityId r then
          applyAssigns r (updConsts true (some e) data now r) else r) x) = false := by
      intro x hx hqx
      have hwx : updWhere true (some e) tenantId entityId x = false := by
        cases hc : updWhere true (some e) tenantId entityId x with
        | true => exact absurd (himp x hx hc) (by simp [hqx])
        | false => rfl
      show (fun r => lookupKey r "id" == some (CVal.vstr entityId) &&
          lookupKey r "tenant_id" == some (CVal.vstr tenantId))
        (if updWhere true (some e) tenantId entityId x = true then
          applyAssigns x (updConsts true (some e) data now x) else x) = false
      rw [if_neg (by simp [hwx])]
      exact hqx
    have hfind := find?_map_single tbl
      (fun r => lookupKey r "id" == some (CVal.vstr entityId) &&
        lookupKey r "tenant_id" == some (CVal.vstr tenantId))
      (fun r => if updWhere true (some e) tenantId entityId r then
        applyAssigns r (updConsts true (some e) data now r) else r)
      r hq hpres hqfa
    constructor
    · simp only [update]
      rw [hfP]
      rw [if_neg (by simp)]
      rw [hfind]
      show Except.ok (some (if updWhere true (some e) tenantId entityId r = true then
          applyAssigns r (updConsts true (some e) data now r) else r)) =
        Except.ok (some (applyAssigns r (updConsts true (some e) data now r)))
      rw [if_pos hP_r]
    · have hu : lookupKey ((updConsts true (some e) data now r).reverse) "version" =
          some (CVal.vint (e + 1)) := by
        simp only [updConsts]
        exact lookupKey_reverse_setKey _ _ _ (buildUpdates_keys_nodup data now hnd)
      rw [lookupKey_applyAssigns, hu]

/-- Witness for C3: a one-row table with version 1.  A stale expected
version (99) yields the Conflict carrying the id and the rejected 99; the
matching expected version (1) succeeds and stores version 1 + 1; a missing
row yields absent. -/
theorem claim3_witness :
    update true [[("id", CVal.vstr "k1"), ("tenant_id", CVal.vstr "A"),
        ("version", CVal.vint 1)]] "A" "k1" [("a", CVal.vint 5)] (some 99) 7 =
      (Except.error { entityId := "k1", expectedVersion := 99 },
        [[("id", CVal.vstr "k1"), ("tenant_id", CVal.vstr "A"), ("version", CVal.vint 1)]]) ∧
    (update true [[("id", CVal.vstr "k1"), ("tenant_id", CVal.vstr "A"),
        ("version", CVal.vint 1)]] "A" "k1" [("a", CVal.vint 5)] (some 1) 7).1 =
      Except.ok (some (applyAssigns
        [("id", CVal.vstr "k1"), ("tenant_id", CVal.vstr "A"), ("version", CVal.vint 1)]
        (updConsts true (some 1) [("a", CVal.vint 5)] 7
          [("id", CVal.vstr "k1"), ("tenant_id", CVal.vstr "A"), ("version", CVal.vint 1)]))) ∧
    lookupKey (applyAssigns
        [("id", CVal.vstr "k1"), ("tenant_id", CVal.vstr "A"), ("version", CVal.vint 1)]
        (updConsts true (some 1) [("a", CVal.vint 5)] 7
          [("id", CVal.vstr "k1"), ("tenant_id", CVal.vstr "A"), ("version", CVal.vint 1)]))
      "version" = some (CVal.vint (1 + 1)) ∧
    update true [[("id", CVal.vstr "k1"), ("tenant_id", CVal.vstr "A"),
        ("version", CVal.vint 1)]] "A" "nope" [("a", CVal.vint 5)] (some 1) 7 =
      (Except.ok none,
        [[("id", CVal.vstr "k1"), ("tenant_id", CVal.vstr "A"), ("version", CVal.vint 1)]]) := by
  have hconf := (claim3_optimistic_update
    [[("id", CVal.vstr "k1"), ("tenant_id", CVal.vstr "A"), ("version", CVal.vint 1)]]
    "A" "k1" [("a", CVal.vint 5)] 99 7).2.1
    [("id", CVal.vstr "k1"), ("tenant_id", CVal.vstr "A"), ("version", CVal.vint 1)]
    1 (by decide) (by decide) (by decide)
  have hsucc := (claim3_optimistic_update
    [[("id", CVal.vstr "k1"), ("tenant_id", CVal.vstr "A"), ("version", CVal.vint 1)]]
    "A" "k1" [("a", CVal.vint 5)] 1 7).2.2
    [("id", CVal.vstr "k1"), ("tenant_id", CVal.vstr "A"), ("version", CVal.vint 1)]
    (by decide) (by decide) (by decide) (by decide) (by decide)
  have habs := (claim3_optimistic_update
    [[("id", CVal.vstr "k1"), ("tenant_id", CVal.vstr "A"), ("version", CVal.vint 1)]]
    "A" "nope" [("a", CVal.vint 5)] 1 7).1 (by decide)
  exact ⟨hconf, hsucc.1, hsucc.2, habs⟩

/-- C8 (amended): when the caller's `data` does not itself supply `id`,
`created_at` or `updated_at`, the created record's id is the freshly
generated identifier, its `created_at` and `updated_at` equal the creation
time, and its version is 1 on version-bearing tables when the caller did
not supply one; the row is appended to the table.  (`{**generated,
**data}` lets caller-supplied keys override the generated ones — see
`claim8_counterexample` — so the claim holds only under this
precondition.) -/
theorem claim8_create_defaults (hasVer : Bool) (tenantId : String) (data : Record)
    (freshId : String) (now : Nat) (tbl : Tbl)
    (hid : lookupKey data "id" = none)
    (hca : lookupKey data "created_at" = none)
    (hua : lookupKey data "updated_at" = none) :
    lookupKey (create hasVer tenantId data freshId now tbl).1 "id" =
      some (CVal.vstr freshId) ∧
    lookupKey (create hasVer tenantId data freshId now tbl).1 "created_at" =
      some (CVal.vtime now) ∧
    lookupKey (create hasVer tenantId data freshId now tbl).1 "updated_at" =
      some (CVal.vtime now) ∧
    (hasVer = true → lookupKey data "version" = none →
      lookupKey (create hasVer tenantId data freshId now tbl).1 "version" =
        some (CVal.vint 1)) ∧
    (create hasVer tenantId data freshId now tbl).2 =
      tbl ++ [(create hasVer tenantId data freshId now tbl).1] := by
  have hraid : lookupKey (applyAssigns [("id", CVal.vstr freshId),
      ("tenant_id", CVal.vstr tenantId), ("created_at", CVal.vtime now),
      ("updated_at", CVal.vtime now)] data) "id" = some (CVal.vstr freshId) := by
    rw [lookupKey_applyAssigns,
      lookupKey_reverse_none data "id" ((lookupKey_eq_none_iff data "id").mp hid)]
    rfl
  have hracr : lookupKey (applyAssigns [("id", CVal.vstr freshId),
      ("tenant_id", CVal.vstr tenantId), ("created_at", CVal.vtime now),
      ("updated_at", CVal.vtime now)] data) "created_at" = some (CVal.vtime now) := by
    rw [lookupKey_applyAssigns,
      lookupKey_reverse_none data "created_at" ((lookupKey_eq_none_iff data "created_at").mp hca)]
    rfl
  have hraup : lookupKey (applyAssigns [("id", CVal.vstr freshId),
      ("tenant_id", CVal.vstr tenantId), ("created_at", CVal.vtime now),
      ("updated_at", CVal.vtime now)] data) "updated_at" = some (CVal.vtime now) := by
    rw [lookupKey_applyAssigns,
      lookupKey_reverse_none data "updated_at" ((lookupKey_eq_none_iff data "updated_at").mp hua)]
    rfl
  have happ : ∀ k w, lookupKey (applyAssigns [("id", CVal.vstr freshId),
      ("tenant_id", CVal.vstr tenantId), ("created_at", CVal.vtime now),
      ("updated_at", CVal.vtime now)] data) k = some w →
      lookupKey (create hasVer tenantId data freshId now tbl).1 k = some w := by
    intro k w hk
    simp only [create]
    by_cases hcond : (hasVer && (lookupKey (applyAssigns [("id", CVal.vstr freshId),
        ("tenant_id", CVal.vstr tenantId), ("created_at", CVal.vtime now),
        ("updated_at", CVal.vtime now)] data) "version").isNone) = true
    · rw [if_pos hcond, lookupKey_append, hk]
    · rw [if_neg hcond]
      exact hk
  refine ⟨happ _ _ hraid, happ _ _ hracr, happ _ _ hraup, ?_, ?_⟩
  · intro hv hdv
    have hver0 : lookupKey (applyAssigns [("id", CVal.vstr freshId),
        ("tenant_id", CVal.vstr tenantId), ("created_at", CVal.vtime now),
        ("updated_at", CVal.vtime now)] data) "version" = none := by
      rw [lookupKey_applyAssigns,
        lookupKey_reverse_none data "version" ((lookupKey_eq_none_iff data "version").mp hdv)]
      rfl
    have hcond : (hasVer && (lookupKey (applyAssigns [("id", CVal.vstr freshId),
        ("tenant_id", CVal.vstr tenantId), ("created_at", CVal.vtime now),
        ("updated_at", CVal.vtime now)] data) "version").isNone) = true := by
      rw [hv, hver0]
      rfl
    simp only [create]
    rw [if_pos hcond, lookupKey_append, hver0]
    rfl
  · rfl

/-- Counterexample for C8 as stated: `data` supplying an `id` overrides the
freshly generated one — the returned id IS taken from `data`. -/
theorem claim8_counterexample :
    lookupKey (create false "T" [("id", CVal.vstr "attacker-chosen")] "fresh-uuid" 7 []).1
      "id" = some (CVal.vstr "attacker-chosen") ∧
    CVal.vstr "attacker-chosen" ≠ CVal.vstr "fresh-uuid" := by
  decide

/-- Witness for C8 on a version-bearing table and data that does not touch
the generated keys. -/
theorem claim8_witness :
    lookupKey (create true "T" [("name", CVal.vstr "x")] "uuid-1" 7 []).1 "id" =
      some (CVal.vstr "uuid-1") ∧
    lookupKey (create true "T" [("name", CVal.vstr "x")] "uuid-1" 7 []).1 "created_at" =
      some (CVal.vtime 7) ∧
    lookupKey (create true "T" [("name", CVal.vstr "x")] "uuid-1" 7 []).1 "updated_at" =
      some (CVal.vtime 7) ∧
    lookupKey (create true "T" [("name", CVal.vstr "x")] "uuid-1" 7 []).1 "version" =
      some (CVal.vint 1) := by
  have h := claim8_create_defaults true "T" [("name", CVal.vstr "x")] "uuid-1" 7 []
    (by decide) (by decide) (by decide)
  exact ⟨h.1, h.2.1, h.2.2.1, h.2.2.2.1 rfl (by decide)⟩

/-- C10: `update` drops `None`-valued entries of `data` and the `_version`
key before the write.  Row by row: a column outside the non-None data
keys, `updated_at`, and (on version-bearing tables) `version` keeps its
value; no column moves from non-NULL to NULL; and `_version` is never
written even when `data` carries it. -/
theorem claim10_update_never_null_frame (hasVer : Bool) (tbl : Tbl)
    (tenantId entityId : String) (data : Record) (expVer : Option Int) (now : Nat)
    (hver : hasVer = true → ∀ r ∈ tbl, lookupKey r "version" = some CVal.vnull ∨
      ∃ n, lookupKey r "version" = some (CVal.vint n)) :
    List.Forall₂ (fun r r2 =>
      (∀ k, k ∉ (data.filter (fun kv => kv.2 ≠ CVal.vnull)).map Prod.fst →
        k ≠ "updated_at" → (hasVer = true → k ≠ "version") →
        lookupKey r2 k = lookupKey r k) ∧
      (∀ k, lookupKey r2 k = some CVal.vnull → lookupKey r k = some CVal.vnull) ∧
      lookupKey r2 "_version" = lookupKey r "_version")
      tbl (update hasVer tbl tenantId entityId data expVer now).2 := by
  rw [update_snd]
  apply forall2_map_self
  intro r hr
  by_cases hw : updWhere hasVer expVer tenantId entityId r = true
  · rw [if_pos hw]
    refine ⟨?_, ?_, ?_⟩
    · intro k hk1 hk2 hk3
      have hnk : k ∉ (updConsts hasVer expVer data now r).map Prod.fst := by
        intro hmem
        rcases keys_updConsts_mem _ _ _ _ _ _ hmem with h2 | h2 | h2
        · exact hk1 h2.1
        · exact hk2 h2
        · exact hk3 h2.1 h2.2
      rw [lookupKey_applyAssigns, lookupKey_reverse_none _ _ hnk]
    · intro k hnull
      rw [lookupKey_applyAssigns] at hnull
      cases hrev : lookupKey (updConsts hasVer expVer data now r).reverse k with
      | none =>
          rw [hrev] at hnull
          exact hnull
      | some v =>
          rw [hrev] at hnull
          have hv : v = CVal.vnull := Option.some.inj hnull
          have hmem : (k, v) ∈ updConsts hasVer expVer data now r := by
            have h2 := lookupKey_mem _ _ _ hrev
            simpa using h2
          rcases mem_updConsts_val _ _ _ _ _ _ _ hmem with h2 | h2
          · exact absurd hv h2
          · obtain ⟨hhv, hk, hval⟩ := h2
            subst hk
            rcases hver hhv r hr with hnull2 | ⟨n, hn⟩
            · exact hnull2
            · exfalso
              rw [hn] at hval
              rw [hv] at hval
              simp [incVal] at hval
    · have hnv : "_version" ∉ (updConsts hasVer expVer data now r).map Prod.fst := by
        intro hmem
        rcases keys_updConsts_mem _ _ _ _ _ _ hmem with h2 | h2 | h2
        · exact h2.2 rfl
        · exact absurd h2 (by decide)
        · exact absurd h2.2 (by decide)
      rw [lookupKey_applyAssigns, lookupKey_reverse_none _ _ hnv]
  · rw [if_neg hw]
    exact ⟨fun k _ _ _ => rfl, fun k h => h, rfl⟩

/-- Witness for C10: data with a None value ("b"), a `_version` hint, and a
real change ("a"); the None-valued column and `_version` are untouched. -/
theorem claim10_witness :
    (update true
      [[("id", CVal.vstr "k1"), ("tenant_id", CVal.vstr "A"), ("a", CVal.vint 1),
        ("b", CVal.vint 2), ("version", CVal.vint 1), ("updated_at", CVal.vtime 0)]]
      "A" "k1" [("a", CVal.vint 5), ("b", CVal.vnull), ("_version", CVal.vint 9)]
      (some 1) 7).2 =
      [[("id", CVal.vstr "k1"), ("tenant_id", CVal.vstr "A"), ("a", CVal.vint 5),
        ("b", CVal.vint 2), ("version", CVal.vint 2), ("updated_at", CVal.vtime 7)]] ∧
    lookupKey [("id", CVal.vstr "k1"), ("tenant_id", CVal.vstr "A"), ("a", CVal.vint 5),
        ("b", CVal.vint 2), ("version", CVal.vint 2), ("updated_at", CVal.vtime 7)] "b" =
      some (CVal.vint 2) ∧
    lookupKey [("id", CVal.vstr "k1"), ("tenant_id", CVal.vstr "A"), ("a", CVal.vint 5),
        ("b", CVal.vint 2), ("version", CVal.vint 2), ("updated_at", CVal.vtime 7)]
      "_version" = none := by
  have h := claim10_update_never_null_frame true
    [[("id", CVal.vstr "k1"), ("tenant_id", CVal.vstr "A"), ("a", CVal.vint 1),
      ("b", CVal.vint 2), ("version", CVal.vint 1), ("updated_at", CVal.vtime 0)]]
    "A" "k1" [("a", CVal.vint 5), ("b", CVal.vnull), ("_version", CVal.vint 9)] (some 1) 7
    (fun _ => fun r hr => by
      have hr0 : r = [("id", CVal.vstr "k1"), ("tenant_id", CVal.vstr "A"),
          ("a", CVal.vint 1), ("b", CVal.vint 2), ("version", CVal.vint 1),
          ("updated_at", CVal.vtime 0)] := by simpa using hr
      subst hr0
      exact Or.inr ⟨1, rfl⟩)
  have ht : (update true
      [[("id", CVal.vstr "k1"), ("tenant_id", CVal.vstr "A"), ("a", CVal.vint 1),
        ("b", CVal.vint 2), ("version", CVal.vint 1), ("updated_at", CVal.vtime 0)]]
      "A" "k1" [("a", CVal.vint 5), ("b", CVal.vnull), ("_version", CVal.vint 9)]
      (some 1) 7).2 =
      [[("id", CVal.vstr "k1"), ("tenant_id", CVal.vstr "A"), ("a", CVal.vint 5),
        ("b", CVal.vint 2), ("version", CVal.vint 2), ("updated_at", CVal.vtime 7)]] := by
    decide
  rw [ht] at h
  cases h with
  | cons hpair htail =>
      refine ⟨ht, ?_, ?_⟩
      · have h2 := hpair.1 "b" (by decide) (by decide) (by intro _; decide)
        rw [h2]
        rfl
      · have h3 := hpair.2.2
        rw [h3]
        rfl

end ErpDsl
